import Mathlib

/-!
# simplefs: an in-memory filesystem (filesystem_lab/simplefs.c)

Shallow embedding of `simplefs.c` and the properties of its operations.

Modelling conventions.

* C arrays (`blocks`, `inodes`, `directory`, `logs`, an inode's `blocks[12]`) are total maps
  indexed by `Nat`; the declared capacities are the constants `MAX_BLOCKS`, `MAX_INODES`,
  `MAX_LOGS`.  A cell whose index is at or past the capacity stands for memory outside the
  C array.  In the C object that memory belongs to the member laid out next (the inode table
  behind the block store, the log behind the directory), which the maps do not describe: the
  embedding agrees with the program on the calls that stay inside the arrays (`call_fits`) and
  on the states reached by such calls (`Within`).  Statements about all calls or about all
  states of `Reachable` are statements about the maps; a call that leaves an array shows as a
  counter above its capacity and as a write to a cell at or past the capacity.
* Bytes are natural numbers (0..255).  A `char` array holding a string is modelled by the
  list of its bytes before the first NUL, cut at the size of the array; reading an index past
  the end of that list yields 0 (the padding written by `strncpy` or `memset`).  A name field
  filled with `MAX_NAME` bytes has no terminator, and `strcmp` reads through the members laid
  out behind it (`name_string`); an `int` is 4 bytes, little-endian.
* `time(NULL)` is an input of every operation that calls it.
* Every function result carries the value returned by the C function (`ret`) together with a
  label of the `return` statement that produced it (`status`), since the C code returns `-1`
  from several places.
-/

namespace SimpleFS

def BLOCK_SIZE : Nat := 4096
def MAX_BLOCKS : Nat := 1024
def MAX_INODES : Nat := 128
def MAX_NAME : Nat := 256
def MAX_LOGS : Nat := 100

/-- Record `struct inode`. -/
structure inode where
  id : Nat
  size : Nat
  permissions : List Nat
  ref_count : Nat
  blocks : Nat → Nat
  indirect_block : Int
  owner_uid : Int
  group_id : Int
  timestamp : Int

/-- Record `struct dir_entry`. -/
structure dir_entry where
  name : List Nat
  inode_id : Nat
  is_soft_link : Nat
  link_path : List Nat

/-- Record `struct log_entry`. -/
structure log_entry where
  operation : List Nat
  timestamp : Int
  hash : Nat

/-- Record `struct simplefs`. -/
structure simplefs where
  blocks : Nat → Nat → Nat
  inodes : Nat → inode
  directory : Nat → dir_entry
  logs : Nat → log_entry
  block_count : Nat
  inode_count : Nat
  dir_count : Nat
  log_count : Nat

/-- Label of the `return` statement an operation left through. -/
inductive Status
  | Ok
  | CapacityExceeded
  | NotFound
  | PermissionDenied
  deriving DecidableEq

/-- Outcome of `create_file`, `create_hard_link`, `create_soft_link`. -/
structure op_result where
  status : Status
  ret : Int
  fs : simplefs

/-- Outcome of `read_file`: `buffer` lists the bytes written to the caller's buffer, from
index 0 on, in order (empty when nothing was written). -/
structure read_result where
  status : Status
  ret : Int
  buffer : List Nat
  fs : simplefs

/-- Array cell update `a[i] = v`. -/
def upd {α : Type} (a : Nat → α) (i : Nat) (v : α) : Nat → α :=
  fun k => if k = i then v else a k

/-- Loop `for (; i < i + fuel; i++) body`: `fuel` turns starting at index `i`. -/
def for_from {σ : Type} (body : Nat → σ → σ) : Nat → Nat → σ → σ
  | 0, _, s => s
  | fuel + 1, i, s => for_from body fuel (i + 1) (body i s)

/-- Loop `for (i = 0; i < n; i++) body`, for a bound `n` that the body does not change. -/
def for_loop {σ : Type} (n : Nat) (body : Nat → σ → σ) (init : σ) : σ :=
  for_from body n 0 init

/-- The bytes of an ASCII string literal. -/
def ascii (s : String) : List Nat := s.toList.map Char.toNat

/-- Conversion `%d` of `snprintf`. -/
def fmt_int (z : Int) : List Nat :=
  if z < 0 then 45 :: (Nat.toDigits 10 z.natAbs).map Char.toNat
  else (Nat.toDigits 10 z.toNat).map Char.toNat

/-- Call `strncpy(dst, src, n)` into a `char dst[n]`: the string then held by `dst`.  A source
of `n` or more bytes leaves `dst` without terminator. -/
def strncpy (n : Nat) (src : List Nat) : List Nat := src.take n

/-- Call `snprintf(dst, n, ...)`: at most `n - 1` bytes of the formatted text are kept. -/
def snprintf (n : Nat) (text : List Nat) : List Nat := text.take (n - 1)

/-- Test `strcmp(a, b) == 0` on two C strings, each given by its bytes before the
terminator. -/
def strcmp_eq (a b : List Nat) : Bool := decide (a = b)

/-- The four bytes of an `int` as they lie in memory (little-endian). -/
def int_bytes (v : Nat) : List Nat :=
  [v % 256, v / 256 % 256, v / 65536 % 256, v / 16777216 % 256]

/-- The C string that starts at `entry->name`, which is what `strcmp(entry->name, ..)` reads.
A name of fewer than `MAX_NAME` bytes has its terminator inside the field.  A field filled
with `MAX_NAME` bytes by `strncpy` has none, and the string runs on through the members laid
out behind it (`inode_id`, `is_soft_link`, `link_path`) up to their first zero byte.  An
`inode_id` below `2^24`, as every id of the inode table is, has a zero byte, so the string
ends inside `inode_id`; the string is followed no further than the end of the entry. -/
def name_string (e : dir_entry) : List Nat :=
  if e.name.length < MAX_NAME then e.name
  else e.name
    ++ (int_bytes e.inode_id ++ int_bytes e.is_soft_link ++ e.link_path).takeWhile
        (fun b => b != 0)

/-- Read `field[i]` of a `char` array holding a string. -/
def char_at (field : List Nat) (i : Nat) : Nat := field.getD i 0

/-- Conversion `(int)ts` followed by the reading of the result as `unsigned int`. -/
def to_u32 (z : Int) : Nat := (z % 4294967296).toNat

/-- Function `compute_hash`. -/
def compute_hash (op : List Nat) (ts : Int) : Nat :=
  (to_u32 ts ^^^ op.length) % 4294967296

/-- Read `indirect_array[i]` where `indirect_array = (int *)block`: a 4-byte little-endian
integer at byte offset `4 * i`. -/
def get_int (block : Nat → Nat) (i : Nat) : Nat :=
  block (4 * i) + 256 * block (4 * i + 1) + 65536 * block (4 * i + 2)
    + 16777216 * block (4 * i + 3)

/-- Write `indirect_array[i] = v` where `indirect_array = (int *)block`. -/
def set_int (block : Nat → Nat) (i v : Nat) : Nat → Nat :=
  upd (upd (upd (upd block (4 * i) (v % 256)) (4 * i + 1) (v / 256 % 256))
    (4 * i + 2) (v / 65536 % 256)) (4 * i + 3) (v / 16777216 % 256)

/-- Function `init_fs`: `memset` to zero, then `indirect_block = -1`, `group_id = -1`. -/
def init_inode : inode :=
  { id := 0, size := 0, permissions := [], ref_count := 0, blocks := fun _ => 0,
    indirect_block := -1, owner_uid := 0, group_id := -1, timestamp := 0 }

def init_fs : simplefs :=
  { blocks := fun _ _ => 0
    inodes := fun _ => init_inode
    directory := fun _ => { name := [], inode_id := 0, is_soft_link := 0, link_path := [] }
    logs := fun _ => { operation := [], timestamp := 0, hash := 0 }
    block_count := 0
    inode_count := 0
    dir_count := 0
    log_count := 0 }

/-- The log write shared by all four operations: slot `log_count % MAX_LOGS` receives the
text, the time and their hash, and `log_count` is incremented. -/
def append_log (fs : simplefs) (text : List Nat) (now : Int) : simplefs :=
  let operation := snprintf MAX_NAME text
  { fs with
    logs := upd fs.logs (fs.log_count % MAX_LOGS)
      { operation := operation, timestamp := now, hash := compute_hash operation now }
    log_count := fs.log_count + 1 }

/-- Directory scan `for (d = 0; d < dir_count; d++) if (strcmp(directory[d].name, name) == 0)`:
the first matching index. -/
def lookup (fs : simplefs) (name : List Nat) : Option Nat :=
  (List.range fs.dir_count).find? (fun d => strcmp_eq (name_string (fs.directory d)) name)

/-- The part of the state that the allocation loops of `create_file` change. -/
structure alloc_state where
  blocks : Nat → Nat → Nat
  block_count : Nat
  direct : Nat → Nat

/-- Inner loop of `create_file`:
`for (j = 0; j < BLOCK_SIZE && j < size - base; j++) blocks[block_id][j] = data[base + j] ^ 0x55`. -/
def write_chunk (blocks : Nat → Nat → Nat) (block_id : Nat) (data : List Nat)
    (size base : Nat) : Nat → Nat → Nat :=
  for_loop (min BLOCK_SIZE (size - base))
    (fun j b => upd b block_id (upd (b block_id) j (data.getD (base + j) 0 ^^^ 0x55))) blocks

/-- Body of the direct-block loop of `create_file`. -/
def direct_body (data : List Nat) (size : Nat) (i : Nat) (st : alloc_state) : alloc_state :=
  let block_id := st.block_count
  { blocks := write_chunk st.blocks block_id data size (i * BLOCK_SIZE)
    block_count := st.block_count + 1
    direct := upd st.direct i block_id }

/-- Body of the indirect-block loop of `create_file`; `ind` is the indirect block. -/
def indirect_body (data : List Nat) (size ind : Nat) (i : Nat) (st : alloc_state) :
    alloc_state :=
  let block_id := st.block_count
  let blocks1 := upd st.blocks ind (set_int (st.blocks ind) i block_id)
  { blocks := write_chunk blocks1 block_id data size ((12 + i) * BLOCK_SIZE)
    block_count := st.block_count + 1
    direct := st.direct }

/-- Block allocation of `create_file`: the direct-block loop and, for more than 12 blocks, the
allocation of the indirect block followed by the indirect loop.  Returns the state after both
and the value stored in `inode->indirect_block`. -/
def alloc_blocks (st0 : alloc_state) (data : List Nat) : alloc_state × Int :=
  let size := data.length
  let total_blocks := (size + BLOCK_SIZE - 1) / BLOCK_SIZE
  let num_direct := if total_blocks < 12 then total_blocks else 12
  let st1 := for_loop num_direct (direct_body data size) st0
  if total_blocks > 12 then
    (for_loop (total_blocks - 12) (indirect_body data size st1.block_count)
        { st1 with block_count := st1.block_count + 1 },
      (st1.block_count : Int))
  else (st1, -1)

/-- The inode written by `create_file` into the slot `old`, given the outcome `a` of the block
allocation. -/
def new_inode (old : inode) (slot : Nat) (permissions : List Nat) (uid : Int) (data : List Nat)
    (now : Int) (a : alloc_state × Int) : inode :=
  { old with
    id := slot
    size := data.length
    permissions := strncpy 10 permissions
    ref_count := 1
    owner_uid := uid
    group_id := Int.tmod uid 10
    timestamp := now
    indirect_block := a.2
    blocks := a.1.direct }

/-- The allocation state at the entry of `create_file`: the block store, `block_count`, and the
direct slots of the inode slot about to be taken. -/
def alloc_start (fs : simplefs) : alloc_state :=
  { blocks := fs.blocks, block_count := fs.block_count,
    direct := (fs.inodes fs.inode_count).blocks }

/-- Function `create_file`; `now` and `now_log` are the results of its two `time(NULL)` calls. -/
def create_file (fs : simplefs) (name permissions : List Nat) (uid : Int) (data : List Nat)
    (now now_log : Int) : op_result :=
  if fs.inode_count ≥ MAX_INODES ∨ fs.block_count ≥ MAX_BLOCKS then
    { status := Status.CapacityExceeded, ret := -1, fs := fs }
  else
    let slot := fs.inode_count
    let a := alloc_blocks (alloc_start fs) data
    let ino := new_inode (fs.inodes slot) slot permissions uid data now a
    let entry : dir_entry :=
      { fs.directory fs.dir_count with
        name := strncpy MAX_NAME name, inode_id := ino.id, is_soft_link := 0 }
    let fs1 : simplefs :=
      { fs with
        blocks := a.1.blocks
        inodes := upd fs.inodes slot ino
        directory := upd fs.directory fs.dir_count entry
        block_count := a.1.block_count
        inode_count := fs.inode_count + 1
        dir_count := fs.dir_count + 1 }
    { status := Status.Ok
      ret := (ino.id : Int)
      fs := append_log fs1 (ascii "Created file " ++ name ++ ascii " by UID " ++ fmt_int uid)
        now_log }

/-- Inner loop of `read_file`:
`for (j = 0; j < to_copy && bytes_read < max_len - 1; j++) buffer[bytes_read++] = block[j] ^ 0x55`.
The buffer is the list of the bytes written so far, so `bytes_read` is its length. -/
def copy_loop (block : Nat → Nat) (to_copy : Nat) (max_len : Int) :
    Nat → Nat → List Nat → List Nat
  | 0, _, buf => buf
  | fuel + 1, j, buf =>
    if j < to_copy ∧ (buf.length : Int) < max_len - 1 then
      copy_loop block to_copy max_len fuel (j + 1) (buf ++ [block j ^^^ 0x55])
    else buf

/-- Direct-block loop of `read_file`: `for (i = 0; i < 12 && remaining > 0; i++)`, with its
`break` on `i >= total_blocks`.  Returns `remaining` and the buffer. -/
def read_direct (fs : simplefs) (ino : inode) (max_len : Int) (total_blocks : Nat) :
    Nat → Nat → Nat → List Nat → Nat × List Nat
  | 0, _, remaining, buf => (remaining, buf)
  | fuel + 1, i, remaining, buf =>
    if i < 12 ∧ remaining > 0 then
      let block_id := ino.blocks i
      if i ≥ total_blocks then (remaining, buf)
      else
        let to_copy := if remaining < BLOCK_SIZE then remaining else BLOCK_SIZE
        let buf1 := copy_loop (fs.blocks block_id) to_copy max_len to_copy 0 buf
        read_direct fs ino max_len total_blocks fuel (i + 1) (remaining - to_copy) buf1
    else (remaining, buf)

/-- Indirect-block loop of `read_file`: `while (remaining > 0)`.  Every turn lowers
`remaining`, so `remaining` turns are enough fuel. -/
def read_indirect (fs : simplefs) (ind : Nat) (max_len : Int) :
    Nat → Nat → Nat → List Nat → List Nat
  | 0, _, _, buf => buf
  | fuel + 1, i, remaining, buf =>
    if remaining > 0 then
      let block_id := get_int (fs.blocks ind) i
      let to_copy := if remaining < BLOCK_SIZE then remaining else BLOCK_SIZE
      let buf1 := copy_loop (fs.blocks block_id) to_copy max_len to_copy 0 buf
      read_indirect fs ind max_len fuel (i + 1) (remaining - to_copy) buf1
    else buf

/-- Data recovery of `read_file`: the bytes copied to the buffer before the terminator. -/
def read_data (fs : simplefs) (ino : inode) (max_len : Int) : List Nat :=
  let total_blocks := (ino.size + BLOCK_SIZE - 1) / BLOCK_SIZE
  let d := read_direct fs ino max_len total_blocks 12 0 ino.size []
  if d.1 > 0 ∧ ino.indirect_block ≠ -1 then
    read_indirect fs ino.indirect_block.toNat max_len d.1 0 d.1 d.2
  else d.2

/-- Permission test of `read_file`. -/
def may_read (ino : inode) (uid : Int) : Bool :=
  decide (ino.owner_uid = uid) ||
    (decide (ino.group_id = Int.tmod uid 10) && decide (char_at ino.permissions 3 = 114)) ||
    decide (char_at ino.permissions 6 = 114)

/-- Permission test of `create_hard_link`. -/
def may_link (ino : inode) (uid : Int) : Bool :=
  decide (ino.owner_uid = uid) ||
    (decide (ino.group_id = Int.tmod uid 10) && decide (char_at ino.permissions 4 = 119)) ||
    decide (char_at ino.permissions 7 = 119)

/-- Function `read_file`; `now` is the result of its `time(NULL)` call. -/
def read_file (fs : simplefs) (name : List Nat) (uid : Int) (max_len : Int) (now : Int) :
    read_result :=
  match lookup fs name with
  | none => { status := Status.NotFound, ret := -1, buffer := [], fs := fs }
  | some d =>
    let ino := fs.inodes (fs.directory d).inode_id
    if may_read ino uid then
      { status := Status.Ok
        ret := (ino.size : Int)
        buffer := read_data fs ino max_len ++ [0]
        fs := append_log fs (ascii "Read file " ++ name ++ ascii " by UID " ++ fmt_int uid) now }
    else
      { status := Status.PermissionDenied, ret := -1, buffer := [], fs := fs }

/-- Function `create_hard_link`; `now` is the result of its `time(NULL)` call. -/
def create_hard_link (fs : simplefs) (existing_name new_name : List Nat) (uid : Int)
    (now : Int) : op_result :=
  match lookup fs existing_name with
  | none => { status := Status.NotFound, ret := -1, fs := fs }
  | some i =>
    let iid := (fs.directory i).inode_id
    let ino := fs.inodes iid
    if may_link ino uid then
      let ino1 : inode := { ino with ref_count := ino.ref_count + 1 }
      let entry : dir_entry :=
        { fs.directory fs.dir_count with
          name := strncpy MAX_NAME new_name, inode_id := ino1.id, is_soft_link := 0 }
      let fs1 : simplefs :=
        { fs with
          inodes := upd fs.inodes iid ino1
          directory := upd fs.directory fs.dir_count entry
          dir_count := fs.dir_count + 1 }
      { status := Status.Ok
        ret := 0
        fs := append_log fs1
          (ascii "Created hard link " ++ new_name ++ ascii " to " ++ existing_name
            ++ ascii " by UID " ++ fmt_int uid) now }
    else
      { status := Status.PermissionDenied, ret := -1, fs := fs }

/-- Function `create_soft_link`; `now` is the result of its `time(NULL)` call. -/
def create_soft_link (fs : simplefs) (existing_name new_name : List Nat) (uid : Int)
    (now : Int) : op_result :=
  let entry : dir_entry :=
    { fs.directory fs.dir_count with
      name := strncpy MAX_NAME new_name
      link_path := strncpy MAX_NAME existing_name
      is_soft_link := 1 }
  let fs1 : simplefs :=
    { fs with
      directory := upd fs.directory fs.dir_count entry
      dir_count := fs.dir_count + 1 }
  { status := Status.Ok
    ret := 0
    fs := append_log fs1
      (ascii "Created soft link " ++ new_name ++ ascii " to " ++ existing_name
        ++ ascii " by UID " ++ fmt_int uid) now }

/-- States reachable from `init_fs` by calls of the four operations with any arguments, calls
that leave an array included (for the runs that stay inside the arrays see `Within`). -/
inductive Reachable : simplefs → Prop
  | init : Reachable init_fs
  | create_file (s : simplefs) (name permissions : List Nat) (uid : Int) (data : List Nat)
      (now now_log : Int) :
      Reachable s → Reachable (create_file s name permissions uid data now now_log).fs
  | read_file (s : simplefs) (name : List Nat) (uid max_len now : Int) :
      Reachable s → Reachable (read_file s name uid max_len now).fs
  | create_hard_link (s : simplefs) (existing_name new_name : List Nat) (uid now : Int) :
      Reachable s → Reachable (create_hard_link s existing_name new_name uid now).fs
  | create_soft_link (s : simplefs) (existing_name new_name : List Nat) (uid now : Int) :
      Reachable s → Reachable (create_soft_link s existing_name new_name uid now).fs

/-- Index of the block holding chunk `i` of a file: a direct slot for `i < 12`, otherwise entry
`i - 12` of the indirect block. -/
def block_of (fs : simplefs) (ino : inode) (i : Nat) : Nat :=
  if i < 12 then ino.blocks i else get_int (fs.blocks ino.indirect_block.toNat) (i - 12)

/-- Byte `k` of a file as laid out in the block store, with the XOR transform undone. -/
def stored_byte (fs : simplefs) (ino : inode) (k : Nat) : Nat :=
  fs.blocks (block_of fs ino (k / BLOCK_SIZE)) (k % BLOCK_SIZE) ^^^ 0x55

/-- The stored content of a file: its `size` bytes, in order. -/
def file_content (fs : simplefs) (ino : inode) : List Nat :=
  (List.range ino.size).map (stored_byte fs ino)

/-- The first `n` stored bytes of a file, cut at `cap` bytes. -/
def read_upto (fs : simplefs) (ino : inode) (cap n : Nat) : List Nat :=
  ((List.range n).map (stored_byte fs ino)).take cap

/-- Number of blocks `create_file` takes from the store for a content of `size` bytes:
the data blocks and, past 12 of them, the indirect block. -/
def blocks_needed (size : Nat) : Nat :=
  let total_blocks := (size + BLOCK_SIZE - 1) / BLOCK_SIZE
  if total_blocks > 12 then total_blocks + 1 else total_blocks

/-- Block that receives chunk `c` of the content: the `c`-th fresh block, shifted by one past
the indirect block. -/
def chunk_block (block_count c : Nat) : Nat :=
  if c < 12 then block_count + c else block_count + c + 1

/-- A state whose block store is exactly full: one file of 1023 data blocks, which takes 12
direct blocks, the indirect block and 1011 further blocks. -/
def full_store : simplefs :=
  (create_file init_fs [97] [] 0 (List.replicate (1023 * 4096) 65) 0 0).fs

/-- Name `name` resolves to directory entry `d`: `d` is the first entry below `dir_count`
whose name, read as a C string, is `name`. -/
def resolves (fs : simplefs) (name : List Nat) (d : Nat) : Prop :=
  d < fs.dir_count ∧ name_string (fs.directory d) = name
    ∧ ∀ k, k < d → name_string (fs.directory k) ≠ name

instance (fs : simplefs) (name : List Nat) (d : Nat) : Decidable (resolves fs name d) := by
  unfold resolves
  infer_instance

/-- No directory entry below `dir_count` bears the name: none has `name` as the C string of
its name field. -/
def absent (fs : simplefs) (name : List Nat) : Prop :=
  ∀ d, d < fs.dir_count → name_string (fs.directory d) ≠ name

instance (fs : simplefs) (name : List Nat) : Decidable (absent fs name) := by
  unfold absent
  infer_instance

/-- The read rule as the specification words it: owner, or same group with `'r'` at index 3,
or `'r'` at index 6.  The group of a uid is `uid % 10` with the C remainder. -/
def read_allowed (ino : inode) (uid : Int) : Prop :=
  uid = ino.owner_uid
    ∨ (Int.tmod uid 10 = ino.group_id ∧ char_at ino.permissions 3 = 114)
    ∨ char_at ino.permissions 6 = 114

instance (ino : inode) (uid : Int) : Decidable (read_allowed ino uid) := by
  unfold read_allowed
  infer_instance

/-- The link rule as the specification words it: owner, or same group with `'w'` at index 4,
or `'w'` at index 7. -/
def link_allowed (ino : inode) (uid : Int) : Prop :=
  uid = ino.owner_uid
    ∨ (Int.tmod uid 10 = ino.group_id ∧ char_at ino.permissions 4 = 119)
    ∨ char_at ino.permissions 7 = 119

instance (ino : inode) (uid : Int) : Decidable (link_allowed ino uid) := by
  unfold link_allowed
  infer_instance

/-- The state of the test driver after its first call: one file `f` with permissions
`rw-r--r--`, owner 1001, content `hi`. -/
def one_file : simplefs :=
  (create_file init_fs [102] (ascii "rw-r--r--") 1001 [104, 105] 1 2).fs

/-- Facts kept by all four operations: a file of more than 12 blocks has an indirect block;
an allocated inode bears its slot as id and a free slot has id 0; the `inode_id` field of a
directory slot designates an allocated inode or is 0. -/
def inv (s : simplefs) : Prop :=
  (∀ k, (s.inodes k).size ≤ 12 * BLOCK_SIZE ∨ (s.inodes k).indirect_block ≠ -1)
  ∧ (∀ k, k < s.inode_count → (s.inodes k).id = k)
  ∧ (∀ k, s.inode_count ≤ k → (s.inodes k).id = 0)
  ∧ (∀ d, (s.directory d).inode_id < s.inode_count ∨ (s.directory d).inode_id = 0)

/-- Two files `f` (content `hi`) and `g` (content `z`) of owner 1001. -/
def two_files : simplefs :=
  (create_file one_file [103] (ascii "rw-r--r--") 1001 [122] 1 2).fs

/-- A name of 257 bytes. -/
def long_name : List Nat := List.replicate 257 98

/-- A content of 1024 full blocks. -/
def huge_data : List Nat := List.replicate (1024 * 4096) 65

/-- The state after `n` calls of `create_soft_link` from `init_fs`. -/
def soft_links : Nat → simplefs
  | 0 => init_fs
  | n + 1 => (create_soft_link (soft_links n) [116] [108] 0 0).fs

/-- The first call of the test driver. -/
def hello_file : simplefs :=
  (create_file init_fs (ascii "file1.txt") (ascii "rw-r--r--") 1001
    (ascii "Hello, Filesystem!") 1 2).fs

/-- One line of output of `verify_logs`: `Log i OK` or `Log i TAMPERED: operation`. -/
inductive log_report
  | ok (i : Nat)
  | tampered (i : Nat) (operation : List Nat)
  deriving DecidableEq

/-- The verdict of `verify_logs` on slot `i`: the stored hash against the hash recomputed
from the stored text and time. -/
def verdict (fs : simplefs) (i : Nat) : log_report :=
  if compute_hash (fs.logs i).operation (fs.logs i).timestamp = (fs.logs i).hash
  then log_report.ok i
  else log_report.tampered i (fs.logs i).operation

/-- Function `verify_logs`: the lines printed by
`for (i = 0; i < log_count && i < MAX_LOGS; i++)`, in order. -/
def verify_logs (fs : simplefs) : List log_report :=
  for_loop (min fs.log_count MAX_LOGS) (fun i out => out ++ [verdict fs i]) []

/-- Function `print_logs`: the entries printed by
`for (i = 0; i < log_count && i < MAX_LOGS; i++)`, in order. -/
def print_logs (fs : simplefs) : List log_entry :=
  for_loop (min fs.log_count MAX_LOGS) (fun i out => out ++ [fs.logs i]) []

/-- Assignment `fs.logs[i].hash = h`, as the test driver does to tamper with the log. -/
def tamper_hash (fs : simplefs) (i h : Nat) : simplefs :=
  { fs with logs := upd fs.logs i { fs.logs i with hash := h } }

/-- Replacement of the text of log slot `i`. -/
def tamper_operation (fs : simplefs) (i : Nat) (text : List Nat) : simplefs :=
  { fs with logs := upd fs.logs i { fs.logs i with operation := text } }

/-- Assignment `fs.logs[i].timestamp = ts`. -/
def tamper_timestamp (fs : simplefs) (i : Nat) (ts : Int) : simplefs :=
  { fs with logs := upd fs.logs i { fs.logs i with timestamp := ts } }

/-- One call of an operation, with its arguments and the results of its `time(NULL)` calls. -/
inductive call
  | create_file (name permissions : List Nat) (uid : Int) (data : List Nat) (now now_log : Int)
  | read_file (name : List Nat) (uid max_len now : Int)
  | create_hard_link (existing_name new_name : List Nat) (uid now : Int)
  | create_soft_link (existing_name new_name : List Nat) (uid now : Int)

/-- The status with which a call leaves in state `s`. -/
def call_status (s : simplefs) : call → Status
  | call.create_file name permissions uid data now now_log =>
    (create_file s name permissions uid data now now_log).status
  | call.read_file name uid max_len now => (read_file s name uid max_len now).status
  | call.create_hard_link existing_name new_name uid now =>
    (create_hard_link s existing_name new_name uid now).status
  | call.create_soft_link existing_name new_name uid now =>
    (create_soft_link s existing_name new_name uid now).status

/-- The state a call leaves when made in state `s`. -/
def call_fs (s : simplefs) : call → simplefs
  | call.create_file name permissions uid data now now_log =>
    (create_file s name permissions uid data now now_log).fs
  | call.read_file name uid max_len now => (read_file s name uid max_len now).fs
  | call.create_hard_link existing_name new_name uid now =>
    (create_hard_link s existing_name new_name uid now).fs
  | call.create_soft_link existing_name new_name uid now =>
    (create_soft_link s existing_name new_name uid now).fs

/-- The state after a sequence of calls made from state `s`. -/
def run (s : simplefs) : List call → simplefs
  | [] => s
  | c :: cs => run (call_fs s c) cs

/-- The number of calls of a sequence made from state `s` that succeed. -/
def successes (s : simplefs) : List call → Nat
  | [] => 0
  | c :: cs => (if call_status s c = Status.Ok then 1 else 0) + successes (call_fs s c) cs

/-- Number of directory entries below `dir_count` that are not soft links and whose inode id
is `i`. -/
def ref_entries (fs : simplefs) (i : Nat) : Nat :=
  ((List.range fs.dir_count).filter
    (fun d => decide ((fs.directory d).is_soft_link = 0 ∧ (fs.directory d).inode_id = i))).length

/-- The log entry made of a text and a time: the text as `snprintf` keeps it, the time, and
the hash of both. -/
def made_entry (text : List Nat) (now : Int) : log_entry :=
  { operation := snprintf MAX_NAME text, timestamp := now,
    hash := compute_hash (snprintf MAX_NAME text) now }

/-- The text a call writes to the log when it succeeds. -/
def call_text : call → List Nat
  | call.create_file name _ uid _ _ _ =>
    ascii "Created file " ++ name ++ ascii " by UID " ++ fmt_int uid
  | call.read_file name uid _ _ => ascii "Read file " ++ name ++ ascii " by UID " ++ fmt_int uid
  | call.create_hard_link existing_name new_name uid _ =>
    ascii "Created hard link " ++ new_name ++ ascii " to " ++ existing_name
      ++ ascii " by UID " ++ fmt_int uid
  | call.create_soft_link existing_name new_name uid _ =>
    ascii "Created soft link " ++ new_name ++ ascii " to " ++ existing_name
      ++ ascii " by UID " ++ fmt_int uid

/-- The time a call stamps its log entry with. -/
def call_time : call → Int
  | call.create_file _ _ _ _ _ now_log => now_log
  | call.read_file _ _ _ now => now
  | call.create_hard_link _ _ _ now => now
  | call.create_soft_link _ _ _ now => now

/-- Every log slot holds a text that fits the text field and the hash of its text and time. -/
def log_inv (s : simplefs) : Prop :=
  ∀ k, (s.logs k).hash = compute_hash (s.logs k).operation (s.logs k).timestamp
    ∧ (s.logs k).operation.length < MAX_NAME

/-- The initial state after `create_soft_link("x", "s", 0)`: one soft-link entry, no inode
allocated. -/
def soft_only : simplefs := (create_soft_link init_fs [120] [115] 0 1).fs

/-- The state `soft_only` after `create_hard_link("s", "h", 0)`, a hard link made through the
soft-link entry. -/
def linked_soft : simplefs := (create_hard_link soft_only [115] [104] 0 2).fs

/-- The state `linked_soft` after `create_file("f", "rw-r--r--", 1001, "hi")`. -/
def dangling_link : simplefs :=
  (create_file linked_soft [102] (ascii "rw-r--r--") 1001 [104, 105] 3 4).fs

/-- The call stays inside the arrays of state `s`: a call that appends a directory entry finds
a free slot in the directory (`directory[dir_count]` with `dir_count < MAX_INODES`), and the
blocks `create_file` takes for its content end within the store.  The inode slot taken by
`create_file` is within the table by its entry check, and the log slot is `log_count % MAX_LOGS`. -/
def call_fits (s : simplefs) : call → Prop
  | call.create_file _ _ _ data _ _ =>
    s.dir_count < MAX_INODES ∧ s.block_count + blocks_needed data.length ≤ MAX_BLOCKS
  | call.read_file _ _ _ _ => True
  | call.create_hard_link _ _ _ _ => s.dir_count < MAX_INODES
  | call.create_soft_link _ _ _ _ => s.dir_count < MAX_INODES

instance (s : simplefs) (c : call) : Decidable (call_fits s c) := by
  cases c <;> unfold call_fits <;> infer_instance

/-- States reachable from `init_fs` within capacity: by calls of the four operations, with any
arguments, each of which stays inside the arrays of the state it is made in.  On these runs no
cell at or past a capacity is ever written. -/
inductive Within : simplefs → Prop
  | init : Within init_fs
  | step (s : simplefs) (c : call) : Within s → call_fits s c → Within (call_fs s c)

/-- A file `f` with permissions `---rw----` (group may read and write, others may not),
created by uid 3: owner 3, group id 3. -/
def group_file : simplefs :=
  (create_file init_fs [102] (ascii "---rw----") 3 [104, 105] 1 2).fs

/-- A state with one inode and one free block: one file of 1022 data blocks, which takes 12
direct blocks, the indirect block and 1010 further blocks. -/
def nearly_full : simplefs :=
  (create_file init_fs [97] [] 0 (List.replicate (1022 * 4096) 65) 0 0).fs

/-- Every call of the sequence, made from state `s` on, stays inside the arrays of the state
it is made in. -/
def run_fits (s : simplefs) : List call → Prop
  | [] => True
  | c :: cs => call_fits s c ∧ run_fits (call_fs s c) cs

/-! ## Arrays and loops -/

@[simp] theorem upd_same {α : Type} (a : Nat → α) (i : Nat) (v : α) : upd a i v i = v := by
  simp [upd]

@[simp] theorem upd_other {α : Type} (a : Nat → α) (i k : Nat) (v : α) (h : k ≠ i) :
    upd a i v k = a k := by
  simp [upd, h]

theorem for_from_succ {σ : Type} (body : Nat → σ → σ) (n i : Nat) (s : σ) :
    for_from body (n + 1) i s = body (i + n) (for_from body n i s) := by
  induction n generalizing i s with
  | zero => simp [for_from]
  | succ k ih =>
    have h := ih (i + 1) (body i s)
    have e : i + 1 + k = i + (k + 1) := by omega
    rw [e] at h
    conv_lhs => unfold for_from
    rw [h]
    conv_rhs => arg 2; unfold for_from

@[simp] theorem for_loop_zero {σ : Type} (body : Nat → σ → σ) (s : σ) :
    for_loop 0 body s = s := rfl

theorem for_loop_succ {σ : Type} (body : Nat → σ → σ) (n : Nat) (s : σ) :
    for_loop (n + 1) body s = body n (for_loop n body s) := by
  unfold for_loop
  rw [for_from_succ, Nat.zero_add]

/-- The inner write loop fills bytes `0 .. n-1` of one block and nothing else. -/
theorem write_loop_apply (blocks : Nat → Nat → Nat) (block_id : Nat) (f : Nat → Nat)
    (n b j : Nat) :
    for_loop n (fun j blk => upd blk block_id (upd (blk block_id) j (f j))) blocks b j
      = if b = block_id ∧ j < n then f j else blocks b j := by
  induction n with
  | zero => simp
  | succ k ih =>
    rw [for_loop_succ]
    by_cases hb : b = block_id
    · subst hb
      by_cases hj : j = k
      · subst hj; simp
      · have hlt : j < k + 1 ↔ j < k :=
          ⟨fun h => Nat.lt_of_le_of_ne (Nat.le_of_lt_succ h) hj, fun h => Nat.lt_succ_of_lt h⟩
        simp [hj, hlt]
        have := ih
        simp at this
        exact this
    · simp [hb]
      have := ih
      simp [hb] at this
      exact this

theorem write_chunk_apply (blocks : Nat → Nat → Nat) (block_id : Nat) (data : List Nat)
    (size base b j : Nat) :
    write_chunk blocks block_id data size base b j
      = if b = block_id ∧ j < min BLOCK_SIZE (size - base)
        then data.getD (base + j) 0 ^^^ 0x55 else blocks b j := by
  unfold write_chunk
  exact write_loop_apply blocks block_id (fun j => data.getD (base + j) 0 ^^^ 0x55) _ b j

theorem get_set_int (block : Nat → Nat) (i v : Nat) (hv : v < 4294967296) :
    get_int (set_int block i v) i = v := by
  unfold get_int set_int
  have h1 : 4 * i ≠ 4 * i + 1 := by omega
  have h2 : 4 * i ≠ 4 * i + 2 := by omega
  have h3 : 4 * i ≠ 4 * i + 3 := by omega
  have h4 : 4 * i + 1 ≠ 4 * i + 2 := by omega
  have h5 : 4 * i + 1 ≠ 4 * i + 3 := by omega
  have h6 : 4 * i + 2 ≠ 4 * i + 3 := by omega
  simp [upd, h1, h2, h3, h4, h5, h6]
  omega

theorem get_set_int_other (block : Nat → Nat) (i k v : Nat) (h : k ≠ i) :
    get_int (set_int block i v) k = get_int block k := by
  unfold get_int set_int
  have a0 : 4 * k ≠ 4 * i := by omega
  have a1 : 4 * k ≠ 4 * i + 1 := by omega
  have a2 : 4 * k ≠ 4 * i + 2 := by omega
  have a3 : 4 * k ≠ 4 * i + 3 := by omega
  have b0 : 4 * k + 1 ≠ 4 * i := by omega
  have b1 : 4 * k + 1 ≠ 4 * i + 1 := by omega
  have b2 : 4 * k + 1 ≠ 4 * i + 2 := by omega
  have b3 : 4 * k + 1 ≠ 4 * i + 3 := by omega
  have c0 : 4 * k + 2 ≠ 4 * i := by omega
  have c1 : 4 * k + 2 ≠ 4 * i + 1 := by omega
  have c2 : 4 * k + 2 ≠ 4 * i + 2 := by omega
  have c3 : 4 * k + 2 ≠ 4 * i + 3 := by omega
  have d0 : 4 * k + 3 ≠ 4 * i := by omega
  have d1 : 4 * k + 3 ≠ 4 * i + 1 := by omega
  have d2 : 4 * k + 3 ≠ 4 * i + 2 := by omega
  have d3 : 4 * k + 3 ≠ 4 * i + 3 := by omega
  simp [upd, a0, a1, a2, a3, b0, b1, b2, b3, c0, c1, c2, c3, d0, d1, d2, d3]

/-! ## The allocation loops of `create_file` -/

theorem direct_loop_block_count (data : List Nat) (size n : Nat) (st : alloc_state) :
    (for_loop n (direct_body data size) st).block_count = st.block_count + n := by
  induction n with
  | zero => simp
  | succ k ih => rw [for_loop_succ]; simp only [direct_body]; rw [ih]; rfl

theorem direct_loop_direct (data : List Nat) (size n : Nat) (st : alloc_state) (i : Nat) :
    (for_loop n (direct_body data size) st).direct i
      = if i < n then st.block_count + i else st.direct i := by
  induction n with
  | zero => simp
  | succ k ih =>
    rw [for_loop_succ]
    simp only [direct_body, direct_loop_block_count]
    by_cases h : i = k
    · subst h; simp
    · rw [upd_other _ _ _ _ h, ih]
      by_cases h2 : i < k
      · have : i < k + 1 := Nat.lt_succ_of_lt h2
        simp [h2, this]
      · have : ¬ i < k + 1 := fun h3 => h2 (Nat.lt_of_le_of_ne (Nat.le_of_lt_succ h3) h)
        simp [h2, this]

theorem direct_loop_blocks (data : List Nat) (size n : Nat) (st : alloc_state) (b j : Nat) :
    (for_loop n (direct_body data size) st).blocks b j
      = if st.block_count ≤ b ∧ b < st.block_count + n
          ∧ j < min BLOCK_SIZE (size - (b - st.block_count) * BLOCK_SIZE)
        then data.getD ((b - st.block_count) * BLOCK_SIZE + j) 0 ^^^ 0x55
        else st.blocks b j := by
  induction n with
  | zero =>
    rw [for_loop_zero, if_neg]
    intro h
    exact absurd h.2.1 (by have := h.1; omega)
  | succ k ih =>
    rw [for_loop_succ]
    simp only [direct_body, direct_loop_block_count, write_chunk_apply]
    rw [ih]
    by_cases h : b = st.block_count + k
    · subst h
      have e : st.block_count + k - st.block_count = k := by omega
      simp [e]
    · have hk : (b < st.block_count + (k + 1)) ↔ (b < st.block_count + k) := by omega
      simp [h, hk]

theorem indirect_loop_block_count (data : List Nat) (size ind n : Nat) (st : alloc_state) :
    (for_loop n (indirect_body data size ind) st).block_count = st.block_count + n := by
  induction n with
  | zero => simp
  | succ k ih => rw [for_loop_succ]; simp only [indirect_body]; rw [ih]; rfl

theorem indirect_loop_direct (data : List Nat) (size ind n : Nat) (st : alloc_state) :
    (for_loop n (indirect_body data size ind) st).direct = st.direct := by
  induction n with
  | zero => simp
  | succ k ih => rw [for_loop_succ]; simp only [indirect_body]; rw [ih]

/-- Data blocks written by the indirect loop (every block but the indirect block itself). -/
theorem indirect_loop_blocks (data : List Nat) (size ind n : Nat) (st : alloc_state)
    (b j : Nat) (hb : b ≠ ind) :
    (for_loop n (indirect_body data size ind) st).blocks b j
      = if st.block_count ≤ b ∧ b < st.block_count + n
          ∧ j < min BLOCK_SIZE (size - (12 + (b - st.block_count)) * BLOCK_SIZE)
        then data.getD ((12 + (b - st.block_count)) * BLOCK_SIZE + j) 0 ^^^ 0x55
        else st.blocks b j := by
  induction n with
  | zero =>
    rw [for_loop_zero, if_neg]
    intro h
    exact absurd h.2.1 (by have := h.1; omega)
  | succ k ih =>
    rw [for_loop_succ]
    simp only [indirect_body, indirect_loop_block_count, write_chunk_apply]
    rw [upd_other _ _ _ _ hb, ih]
    by_cases h : b = st.block_count + k
    · subst h
      have e : st.block_count + k - st.block_count = k := by omega
      simp [e]
    · have hk : (b < st.block_count + (k + 1)) ↔ (b < st.block_count + k) := by omega
      simp [h, hk]

/-- Entries of the indirect block after the indirect loop. -/
theorem indirect_loop_entries (data : List Nat) (size ind n : Nat) (st : alloc_state)
    (hind : ind < st.block_count) (hcap : st.block_count + n ≤ 4294967296) (i : Nat) :
    get_int ((for_loop n (indirect_body data size ind) st).blocks ind) i
      = if i < n then st.block_count + i else get_int (st.blocks ind) i := by
  induction n with
  | zero => simp
  | succ k ih =>
    have ihk := ih (by omega)
    rw [for_loop_succ]
    simp only [indirect_body, indirect_loop_block_count]
    have hne : ind ≠ st.block_count + k := by omega
    have hblk : write_chunk
        (upd (for_loop k (indirect_body data size ind) st).blocks ind
          (set_int ((for_loop k (indirect_body data size ind) st).blocks ind) k
            (st.block_count + k)))
        (st.block_count + k) data size ((12 + k) * BLOCK_SIZE) ind
        = set_int ((for_loop k (indirect_body data size ind) st).blocks ind) k
            (st.block_count + k) := by
      funext j
      rw [write_chunk_apply]
      simp [hne]
    rw [hblk]
    by_cases h : i = k
    · subst h
      rw [get_set_int _ _ _ (by omega)]
      simp
    · rw [get_set_int_other _ _ _ _ h, ihk]
      by_cases h2 : i < k
      · have : i < k + 1 := Nat.lt_succ_of_lt h2
        simp [h2, this]
      · have : ¬ i < k + 1 := fun h3 => h2 (Nat.lt_of_le_of_ne (Nat.le_of_lt_succ h3) h)
        simp [h2, this]

/-! ## The copy loops of `read_file` -/

theorem copy_loop_eq (block : Nat → Nat) (to_copy : Nat) (max_len : Int) (fuel j : Nat)
    (buf : List Nat) (hf : to_copy ≤ j + fuel) :
    copy_loop block to_copy max_len fuel j buf
      = buf ++ ((List.range' j (to_copy - j)).map (fun k => block k ^^^ 0x55)).take
          ((max_len - 1).toNat - buf.length) := by
  induction fuel generalizing j buf with
  | zero =>
    have e : to_copy - j = 0 := by omega
    simp [copy_loop, e]
  | succ k ih =>
    unfold copy_loop
    by_cases hc : j < to_copy ∧ (buf.length : Int) < max_len - 1
    · rw [if_pos hc, ih (j + 1) _ (by omega)]
      obtain ⟨h1, h2⟩ := hc
      have e1 : to_copy - j = (to_copy - (j + 1)) + 1 := by omega
      have e2 : (max_len - 1).toNat - buf.length
          = ((max_len - 1).toNat - (buf ++ [block j ^^^ 0x55]).length) + 1 := by
        simp only [List.length_append, List.length_singleton]
        omega
      rw [e1, e2, List.range'_succ, List.map_cons, List.take_succ_cons]
      simp
    · rw [if_neg hc]
      by_cases h1 : j < to_copy
      · have h2 : ¬ (buf.length : Int) < max_len - 1 := fun h => hc ⟨h1, h⟩
        have e : (max_len - 1).toNat - buf.length = 0 := by omega
        rw [e, List.take_zero, List.append_nil]
      · have e : to_copy - j = 0 := by omega
        simp [e]

theorem stored_byte_chunk (fs : simplefs) (ino : inode) (i j : Nat) (hj : j < BLOCK_SIZE) :
    stored_byte fs ino (i * BLOCK_SIZE + j)
      = fs.blocks (block_of fs ino i) j ^^^ 0x55 := by
  unfold stored_byte
  have hB : BLOCK_SIZE = 4096 := rfl
  rw [hB] at hj ⊢
  have e1 : (i * 4096 + j) / 4096 = i := by omega
  have e2 : (i * 4096 + j) % 4096 = j := by omega
  rw [e1, e2]

/-- Copying chunk `i` extends the bytes read so far by that chunk, up to the cap. -/
theorem read_upto_chunk (fs : simplefs) (ino : inode) (cap i to_copy : Nat)
    (hc : to_copy ≤ BLOCK_SIZE) :
    read_upto fs ino cap (i * BLOCK_SIZE)
        ++ ((List.range' 0 (to_copy - 0)).map
            (fun k => fs.blocks (block_of fs ino i) k ^^^ 0x55)).take
          (cap - (read_upto fs ino cap (i * BLOCK_SIZE)).length)
      = read_upto fs ino cap (i * BLOCK_SIZE + to_copy) := by
  unfold read_upto
  have hmap : (List.range' 0 (to_copy - 0)).map
        (fun k => fs.blocks (block_of fs ino i) k ^^^ 0x55)
      = (List.range' (i * BLOCK_SIZE) to_copy).map (stored_byte fs ino) := by
    apply List.ext_getElem
    · simp
    · intro n h1 h2
      simp only [List.length_map, List.length_range'] at h1
      simp only [List.getElem_map, List.getElem_range']
      have hn : n < BLOCK_SIZE := by omega
      simp [stored_byte_chunk fs ino i n hn]
  rw [hmap]
  have hr : List.range (i * BLOCK_SIZE + to_copy)
      = List.range (i * BLOCK_SIZE) ++ List.range' (i * BLOCK_SIZE) to_copy := by
    rw [List.range_add, List.range'_eq_map_range]
  rw [hr, List.map_append, List.take_append_eq_append_take]
  simp only [List.length_take, List.length_map, List.length_range]
  congr 2
  omega

theorem read_direct_eq (fs : simplefs) (ino : inode) (max_len : Int) (fuel i remaining : Nat)
    (hfi : i + fuel = 12) (hrs : remaining ≤ ino.size)
    (hle : ino.size - remaining ≤ i * BLOCK_SIZE)
    (hpos : 0 < remaining → ino.size - remaining = i * BLOCK_SIZE) :
    read_direct fs ino max_len ((ino.size + BLOCK_SIZE - 1) / BLOCK_SIZE) fuel i remaining
        (read_upto fs ino (max_len - 1).toNat (ino.size - remaining))
      = (ino.size - min ino.size (12 * BLOCK_SIZE),
          read_upto fs ino (max_len - 1).toNat (min ino.size (12 * BLOCK_SIZE))) := by
  have hB : BLOCK_SIZE = 4096 := rfl
  induction fuel generalizing i remaining with
  | zero =>
    have hi : i = 12 := by omega
    subst hi
    unfold read_direct
    rw [hB] at hle hpos ⊢
    by_cases hr : 0 < remaining
    · have := hpos hr
      have e1 : min ino.size (12 * 4096) = ino.size - remaining := by omega
      have e2 : ino.size - (ino.size - remaining) = remaining := by omega
      rw [e1, e2]
    · have e1 : min ino.size (12 * 4096) = ino.size - remaining := by omega
      have e2 : ino.size - (ino.size - remaining) = remaining := by omega
      rw [e1, e2]
  | succ k ih =>
    unfold read_direct
    by_cases hc : i < 12 ∧ remaining > 0
    · obtain ⟨hi, hr⟩ := hc
      have hdone := hpos hr
      have hnb : ¬ i ≥ (ino.size + BLOCK_SIZE - 1) / BLOCK_SIZE := by
        rw [hB] at hdone ⊢
        omega
      rw [if_pos ⟨hi, hr⟩]
      simp only [hnb, if_false]
      rw [copy_loop_eq _ _ _ _ _ _ (by omega)]
      have hbo : ino.blocks i = block_of fs ino i := by simp [block_of, hi]
      have hto : (if remaining < BLOCK_SIZE then remaining else BLOCK_SIZE) ≤ BLOCK_SIZE := by
        split <;> omega
      rw [hbo, hdone, read_upto_chunk fs ino _ i _ hto]
      have hrem : i * BLOCK_SIZE + (if remaining < BLOCK_SIZE then remaining else BLOCK_SIZE)
          = ino.size - (remaining - (if remaining < BLOCK_SIZE then remaining else BLOCK_SIZE)) := by
        split <;> omega
      rw [hrem]
      apply ih (i + 1) _ (by omega)
      · omega
      · rw [← hrem, hB]; split <;> omega
      · intro h
        rw [← hrem, hB]
        rw [hB] at h
        split at h
        · omega
        · simp only [*, if_false, hB] at *
          omega
    · rw [if_neg hc]
      have hr : remaining = 0 ∨ i = 12 := by omega
      rw [hB] at hle hpos ⊢
      rcases hr with hr | hr
      · subst hr
        have e1 : min ino.size (12 * 4096) = ino.size := by omega
        simp [e1]
      · subst hr
        by_cases hr2 : 0 < remaining
        · have := hpos hr2
          have e1 : min ino.size (12 * 4096) = ino.size - remaining := by omega
          have e2 : ino.size - (ino.size - remaining) = remaining := by omega
          rw [e1, e2]
        · have e1 : min ino.size (12 * 4096) = ino.size - remaining := by omega
          have e2 : ino.size - (ino.size - remaining) = remaining := by omega
          rw [e1, e2]

theorem read_indirect_eq (fs : simplefs) (ino : inode) (max_len : Int) (fuel i remaining : Nat)
    (hfuel : remaining ≤ fuel) (hrs : remaining ≤ ino.size)
    (hpos : 0 < remaining → ino.size - remaining = (12 + i) * BLOCK_SIZE) :
    read_indirect fs ino.indirect_block.toNat max_len fuel i remaining
        (read_upto fs ino (max_len - 1).toNat (ino.size - remaining))
      = read_upto fs ino (max_len - 1).toNat ino.size := by
  have hB : BLOCK_SIZE = 4096 := rfl
  induction fuel generalizing i remaining with
  | zero =>
    have hr : remaining = 0 := by omega
    subst hr
    simp [read_indirect]
  | succ k ih =>
    unfold read_indirect
    by_cases hr : remaining > 0
    · have hdone := hpos hr
      rw [if_pos hr]
      simp only []
      rw [copy_loop_eq _ _ _ _ _ _ (by omega)]
      have hbo : get_int (fs.blocks ino.indirect_block.toNat) i = block_of fs ino (12 + i) := by
        simp [block_of]
      have hto : (if remaining < BLOCK_SIZE then remaining else BLOCK_SIZE) ≤ BLOCK_SIZE := by
        split <;> omega
      rw [hbo, hdone, read_upto_chunk fs ino _ (12 + i) _ hto]
      have hrem : (12 + i) * BLOCK_SIZE
            + (if remaining < BLOCK_SIZE then remaining else BLOCK_SIZE)
          = ino.size - (remaining - (if remaining < BLOCK_SIZE then remaining else BLOCK_SIZE)) := by
        split <;> omega
      rw [hrem]
      apply ih (i + 1)
      · rw [hB]; split <;> omega
      · omega
      · intro h
        rw [← hrem, hB]
        rw [hB] at h
        split at h
        · omega
        · simp only [*, if_false, hB] at *
          omega
    · rw [if_neg hr]
      have hr0 : remaining = 0 := by omega
      subst hr0
      simp

/-- What the two copy loops of `read_file` put in the buffer: the stored bytes of the file in
order, cut at `max_len - 1` bytes; only the direct part when a file of more than 12 blocks has
no indirect block. -/
theorem read_data_eq (fs : simplefs) (ino : inode) (max_len : Int) :
    read_data fs ino max_len
      = read_upto fs ino (max_len - 1).toNat
          (if ino.size > 12 * BLOCK_SIZE ∧ ino.indirect_block = -1 then 12 * BLOCK_SIZE
           else ino.size) := by
  have hB : BLOCK_SIZE = 4096 := rfl
  unfold read_data
  have h0 : ([] : List Nat) = read_upto fs ino (max_len - 1).toNat (ino.size - ino.size) := by
    simp [read_upto]
  have hd := read_direct_eq fs ino max_len 12 0 ino.size (by omega) (by omega) (by omega)
    (by intro _; omega)
  rw [← h0] at hd
  simp only [hd]
  by_cases hbig : ino.size > 12 * BLOCK_SIZE
  · have e1 : min ino.size (12 * BLOCK_SIZE) = 12 * BLOCK_SIZE := by omega
    have hpos : ino.size - 12 * BLOCK_SIZE > 0 := by omega
    rw [e1]
    by_cases hind : ino.indirect_block = -1
    · simp [hbig, hind]
    · rw [if_pos ⟨hpos, hind⟩, if_neg (fun h => hind h.2)]
      have e2 : 12 * BLOCK_SIZE = ino.size - (ino.size - 12 * BLOCK_SIZE) := by omega
      have := read_indirect_eq fs ino max_len (ino.size - 12 * BLOCK_SIZE) 0
        (ino.size - 12 * BLOCK_SIZE) (by omega) (by omega) (by intro _; omega)
      rw [← e2] at this
      exact this
  · have e1 : min ino.size (12 * BLOCK_SIZE) = ino.size := by omega
    rw [e1, if_neg (by omega), if_neg (fun h => hbig h.1)]

theorem read_data_content (fs : simplefs) (ino : inode) (max_len : Int)
    (h : ino.size ≤ 12 * BLOCK_SIZE ∨ ino.indirect_block ≠ -1) :
    read_data fs ino max_len = (file_content fs ino).take (max_len - 1).toNat := by
  rw [read_data_eq, if_neg]
  · rfl
  · intro hc
    rcases h with h | h
    · omega
    · exact h hc.2

/-! ## What `create_file` allocates and writes -/

theorem alloc_blocks_block_count (st0 : alloc_state) (data : List Nat) :
    (alloc_blocks st0 data).1.block_count = st0.block_count + blocks_needed data.length := by
  unfold alloc_blocks blocks_needed
  by_cases h : (data.length + BLOCK_SIZE - 1) / BLOCK_SIZE > 12
  · have h2 : ¬ (data.length + BLOCK_SIZE - 1) / BLOCK_SIZE < 12 := by omega
    simp only [h, h2, if_true, if_false, indirect_loop_block_count, direct_loop_block_count]
    omega
  · simp only [h, if_false, direct_loop_block_count]
    split <;> omega

theorem alloc_blocks_indirect (st0 : alloc_state) (data : List Nat) :
    (alloc_blocks st0 data).2
      = if (data.length + BLOCK_SIZE - 1) / BLOCK_SIZE > 12
        then ((st0.block_count + 12 : Nat) : Int) else -1 := by
  unfold alloc_blocks
  by_cases h : (data.length + BLOCK_SIZE - 1) / BLOCK_SIZE > 12
  · have h2 : ¬ (data.length + BLOCK_SIZE - 1) / BLOCK_SIZE < 12 := by omega
    simp only [h, h2, if_true, if_false, direct_loop_block_count]
  · simp only [h, if_false]

theorem alloc_blocks_direct (st0 : alloc_state) (data : List Nat) (i : Nat) :
    (alloc_blocks st0 data).1.direct i
      = if i < min ((data.length + BLOCK_SIZE - 1) / BLOCK_SIZE) 12
        then st0.block_count + i else st0.direct i := by
  unfold alloc_blocks
  by_cases h : (data.length + BLOCK_SIZE - 1) / BLOCK_SIZE > 12
  · have h2 : ¬ (data.length + BLOCK_SIZE - 1) / BLOCK_SIZE < 12 := by omega
    have e : min ((data.length + BLOCK_SIZE - 1) / BLOCK_SIZE) 12 = 12 := by omega
    simp only [h, h2, if_true, if_false, indirect_loop_direct, direct_loop_direct, e]
  · have e : min ((data.length + BLOCK_SIZE - 1) / BLOCK_SIZE) 12
        = if (data.length + BLOCK_SIZE - 1) / BLOCK_SIZE < 12
          then (data.length + BLOCK_SIZE - 1) / BLOCK_SIZE else 12 := by
      split <;> omega
    simp only [h, if_false, direct_loop_direct, e]

/-- Blocks below the old `block_count` are not written by the allocation. -/
theorem alloc_blocks_frame (st0 : alloc_state) (data : List Nat) (b j : Nat)
    (hb : b < st0.block_count) :
    (alloc_blocks st0 data).1.blocks b j = st0.blocks b j := by
  unfold alloc_blocks
  by_cases h : (data.length + BLOCK_SIZE - 1) / BLOCK_SIZE > 12
  · have h2 : ¬ (data.length + BLOCK_SIZE - 1) / BLOCK_SIZE < 12 := by omega
    simp only [h, h2, if_true, if_false]
    rw [indirect_loop_blocks _ _ _ _ _ _ _ (by rw [direct_loop_block_count]; omega)]
    dsimp only
    rw [direct_loop_block_count]
    rw [if_neg (by intro hc; omega), direct_loop_blocks, if_neg (by intro hc; omega)]
  · simp only [h, if_false]
    rw [direct_loop_blocks, if_neg (by intro hc; omega)]

theorem alloc_blocks_data (st0 : alloc_state) (data : List Nat) (c j : Nat)
    (hc : c < (data.length + BLOCK_SIZE - 1) / BLOCK_SIZE)
    (hj : j < min BLOCK_SIZE (data.length - c * BLOCK_SIZE)) :
    (alloc_blocks st0 data).1.blocks (chunk_block st0.block_count c) j
      = data.getD (c * BLOCK_SIZE + j) 0 ^^^ 0x55 := by
  unfold alloc_blocks chunk_block
  by_cases h : (data.length + BLOCK_SIZE - 1) / BLOCK_SIZE > 12
  · have h2 : ¬ (data.length + BLOCK_SIZE - 1) / BLOCK_SIZE < 12 := by omega
    simp only [h, h2, if_true, if_false]
    by_cases hc12 : c < 12
    · simp only [hc12, if_true]
      rw [indirect_loop_blocks _ _ _ _ _ _ _ (by rw [direct_loop_block_count]; omega)]
      dsimp only
      rw [direct_loop_block_count]
      rw [if_neg (by intro hx; omega), direct_loop_blocks]
      have e : st0.block_count + c - st0.block_count = c := by omega
      rw [e, if_pos ⟨by omega, by omega, hj⟩]
    · simp only [hc12, if_false]
      rw [indirect_loop_blocks _ _ _ _ _ _ _ (by rw [direct_loop_block_count]; omega)]
      dsimp only
      rw [direct_loop_block_count]
      have e : st0.block_count + c + 1 - (st0.block_count + 12 + 1) = c - 12 := by omega
      have e2 : 12 + (c - 12) = c := by omega
      rw [e, e2, if_pos ⟨by omega, by omega, hj⟩]
  · have hc12 : c < 12 := by omega
    have h3 : (data.length + BLOCK_SIZE - 1) / BLOCK_SIZE < 12
        ∨ (data.length + BLOCK_SIZE - 1) / BLOCK_SIZE = 12 := by omega
    simp only [h, hc12, if_true, if_false]
    rw [direct_loop_blocks]
    have e : st0.block_count + c - st0.block_count = c := by omega
    rw [e, if_pos ⟨by omega, by split <;> omega, hj⟩]

theorem alloc_blocks_entries (st0 : alloc_state) (data : List Nat) (i : Nat)
    (hcap : st0.block_count + blocks_needed data.length ≤ 4294967296)
    (hi : 12 + i < (data.length + BLOCK_SIZE - 1) / BLOCK_SIZE) :
    get_int ((alloc_blocks st0 data).1.blocks (st0.block_count + 12)) i
      = st0.block_count + 12 + 1 + i := by
  unfold blocks_needed at hcap
  unfold alloc_blocks
  have h : (data.length + BLOCK_SIZE - 1) / BLOCK_SIZE > 12 := by omega
  have h2 : ¬ (data.length + BLOCK_SIZE - 1) / BLOCK_SIZE < 12 := by omega
  simp only [h, h2, if_true, if_false] at hcap ⊢
  rw [direct_loop_block_count]
  rw [indirect_loop_entries _ _ _ _ _ (by simp) (by simp only []; omega)]
  rw [if_pos (by omega)]

theorem xor_twice (a m : Nat) : (a ^^^ m) ^^^ m = a := by
  rw [Nat.xor_assoc, Nat.xor_self, Nat.xor_zero]

/-- Chunk `c` of a freshly created file lives in block `chunk_block block_count c`. -/
theorem new_inode_block_of (fs1 : simplefs) (st0 : alloc_state) (data : List Nat)
    (old : inode) (slot : Nat) (permissions : List Nat) (uid now : Int) (c : Nat)
    (hblocks : fs1.blocks = (alloc_blocks st0 data).1.blocks)
    (hcap : st0.block_count + blocks_needed data.length ≤ 4294967296)
    (hc : c < (data.length + BLOCK_SIZE - 1) / BLOCK_SIZE) :
    block_of fs1 (new_inode old slot permissions uid data now (alloc_blocks st0 data)) c
      = chunk_block st0.block_count c := by
  unfold block_of chunk_block new_inode
  by_cases hc12 : c < 12
  · simp only [hc12, if_true]
    rw [alloc_blocks_direct, if_pos (by omega)]
  · simp only [hc12, if_false]
    have ht : (data.length + BLOCK_SIZE - 1) / BLOCK_SIZE > 12 := by omega
    rw [alloc_blocks_indirect, if_pos ht, Int.toNat_ofNat, hblocks,
      alloc_blocks_entries st0 data (c - 12) hcap (by omega)]
    omega

/-- The stored content of a freshly created file is the data it was created with. -/
theorem new_file_content (fs1 : simplefs) (st0 : alloc_state) (data : List Nat)
    (old : inode) (slot : Nat) (permissions : List Nat) (uid now : Int)
    (hblocks : fs1.blocks = (alloc_blocks st0 data).1.blocks)
    (hcap : st0.block_count + blocks_needed data.length ≤ 4294967296) :
    file_content fs1 (new_inode old slot permissions uid data now (alloc_blocks st0 data))
      = data := by
  have hB : BLOCK_SIZE = 4096 := rfl
  have hsize : (new_inode old slot permissions uid data now (alloc_blocks st0 data)).size
      = data.length := rfl
  unfold file_content
  apply List.ext_getElem
  · simp [hsize]
  · intro k h1 h2
    simp only [List.getElem_map, List.getElem_range]
    unfold stored_byte
    have hc : k / BLOCK_SIZE < (data.length + BLOCK_SIZE - 1) / BLOCK_SIZE := by
      rw [hB]; omega
    rw [new_inode_block_of fs1 st0 data old slot permissions uid now _ hblocks hcap hc, hblocks,
      alloc_blocks_data st0 data _ _ hc (by rw [hB]; omega), xor_twice]
    have e : k / BLOCK_SIZE * BLOCK_SIZE + k % BLOCK_SIZE = k := by rw [hB]; omega
    rw [e]
    simp [List.getD_eq_getElem?_getD, h2]

/-! ## Directory lookup -/

theorem find_range_succ (p : Nat → Bool) (n : Nat) :
    (List.range (n + 1)).find? p
      = ((List.range n).find? p).or (if p n then some n else none) := by
  rw [List.range_succ, List.find?_append]
  congr 1
  by_cases h : p n <;> simp [List.find?, h]

theorem find_range_none (p : Nat → Bool) (n : Nat) :
    (List.range n).find? p = none ↔ ∀ d, d < n → p d = false := by
  simp [List.find?_eq_none]

theorem find_range_some (p : Nat → Bool) (n d : Nat) (h : (List.range n).find? p = some d) :
    d < n ∧ p d = true ∧ ∀ k, k < d → p k = false := by
  induction n with
  | zero => simp at h
  | succ m ih =>
    rw [find_range_succ] at h
    cases hm : (List.range m).find? p with
    | some x =>
      rw [hm] at h
      simp only [Option.or_some] at h
      cases h
      obtain ⟨h1, h2, h3⟩ := ih hm
      exact ⟨Nat.lt_succ_of_lt h1, h2, h3⟩
    | none =>
      rw [hm] at h
      simp only [Option.none_or] at h
      by_cases hp : p m
      · rw [if_pos hp] at h
        cases h
        exact ⟨Nat.lt_succ_self _, hp, fun k hk => (find_range_none p _).1 hm k hk⟩
      · rw [if_neg hp] at h
        cases h

theorem find_range_congr (p q : Nat → Bool) (n : Nat) (h : ∀ d, d < n → p d = q d) :
    (List.range n).find? p = (List.range n).find? q := by
  induction n with
  | zero => rfl
  | succ m ih =>
    rw [find_range_succ, find_range_succ, ih (fun d hd => h d (Nat.lt_succ_of_lt hd)),
      h m (Nat.lt_succ_self m)]

theorem lookup_none_iff (fs : simplefs) (name : List Nat) :
    lookup fs name = none ↔ ∀ d, d < fs.dir_count → name_string (fs.directory d) ≠ name := by
  unfold lookup
  rw [find_range_none]
  simp [strcmp_eq]

theorem lookup_some (fs : simplefs) (name : List Nat) (d : Nat) (h : lookup fs name = some d) :
    d < fs.dir_count ∧ name_string (fs.directory d) = name
      ∧ ∀ k, k < d → name_string (fs.directory k) ≠ name := by
  unfold lookup at h
  obtain ⟨h1, h2, h3⟩ := find_range_some _ _ _ h
  refine ⟨h1, by simpa [strcmp_eq] using h2, fun k hk => ?_⟩
  simpa [strcmp_eq] using h3 k hk

/-- Lookup only depends on the directory entries below `dir_count`. -/
theorem lookup_congr (fs1 fs2 : simplefs) (name : List Nat)
    (hc : fs2.dir_count = fs1.dir_count)
    (hd : ∀ d, d < fs1.dir_count → fs2.directory d = fs1.directory d) :
    lookup fs2 name = lookup fs1 name := by
  unfold lookup
  rw [hc]
  apply find_range_congr
  intro d h
  rw [hd d h]

/-- Lookup after one entry was appended at index `dir_count`: an earlier match wins, otherwise
the new entry is found when it bears the name. -/
theorem lookup_append (fs1 fs2 : simplefs) (name : List Nat)
    (hc : fs2.dir_count = fs1.dir_count + 1)
    (hd : ∀ d, d < fs1.dir_count → fs2.directory d = fs1.directory d) :
    lookup fs2 name
      = (lookup fs1 name).or
          (if name_string (fs2.directory fs1.dir_count) = name then some fs1.dir_count
            else none) := by
  unfold lookup
  rw [hc, find_range_succ]
  congr 1
  · apply find_range_congr
    intro d h
    rw [hd d h]
  · simp [strcmp_eq]

/-! ## Effect of the operations on the state -/

theorem create_file_full (fs : simplefs) (name permissions : List Nat) (uid : Int)
    (data : List Nat) (now now_log : Int)
    (h : fs.inode_count ≥ MAX_INODES ∨ fs.block_count ≥ MAX_BLOCKS) :
    create_file fs name permissions uid data now now_log
      = { status := Status.CapacityExceeded, ret := -1, fs := fs } := by
  unfold create_file
  rw [if_pos h]

/-- The state built by a `create_file` call that passes the entry check. -/
theorem create_file_pass (fs : simplefs) (name permissions : List Nat) (uid : Int)
    (data : List Nat) (now now_log : Int)
    (h : ¬ (fs.inode_count ≥ MAX_INODES ∨ fs.block_count ≥ MAX_BLOCKS)) :
    (create_file fs name permissions uid data now now_log).status = Status.Ok
    ∧ (create_file fs name permissions uid data now now_log).ret = (fs.inode_count : Int)
    ∧ (create_file fs name permissions uid data now now_log).fs.blocks
        = (alloc_blocks (alloc_start fs) data).1.blocks
    ∧ (create_file fs name permissions uid data now now_log).fs.inodes
        = upd fs.inodes fs.inode_count
            (new_inode (fs.inodes fs.inode_count) fs.inode_count permissions uid data now
              (alloc_blocks (alloc_start fs) data))
    ∧ (create_file fs name permissions uid data now now_log).fs.directory
        = upd fs.directory fs.dir_count
            { fs.directory fs.dir_count with
              name := strncpy MAX_NAME name, inode_id := fs.inode_count, is_soft_link := 0 }
    ∧ (create_file fs name permissions uid data now now_log).fs.block_count
        = fs.block_count + blocks_needed data.length
    ∧ (create_file fs name permissions uid data now now_log).fs.inode_count
        = fs.inode_count + 1
    ∧ (create_file fs name permissions uid data now now_log).fs.dir_count
        = fs.dir_count + 1 := by
  unfold create_file
  rw [if_neg h]
  refine ⟨rfl, rfl, rfl, rfl, rfl, ?_, rfl, rfl⟩
  exact alloc_blocks_block_count (alloc_start fs) data

theorem strncpy_short (n : Nat) (src : List Nat) (h : src.length < n) : strncpy n src = src := by
  unfold strncpy
  exact List.take_of_length_le (Nat.le_of_lt h)

/-- A name field that holds fewer than `MAX_NAME` bytes is terminated inside the field. -/
theorem name_string_short (e : dir_entry) (h : e.name.length < MAX_NAME) :
    name_string e = e.name := by
  unfold name_string
  rw [if_pos h]

/-- The C string of a name field has the length of the bytes held by the field, or more. -/
theorem name_string_length (e : dir_entry) : e.name.length ≤ (name_string e).length := by
  unfold name_string
  split
  · exact Nat.le_refl _
  · rw [List.length_append]
    exact Nat.le_add_right _ _

/-- The bytes `read_file` copies depend on the block store only. -/
theorem read_data_congr (fs1 fs2 : simplefs) (ino : inode) (max_len : Int)
    (h : fs2.blocks = fs1.blocks) : read_data fs2 ino max_len = read_data fs1 ino max_len := by
  rw [read_data_eq, read_data_eq]
  unfold read_upto stored_byte block_of
  rw [h]

/-- The outcome of `read_file` once the name is resolved. -/
theorem read_file_found (fs : simplefs) (name : List Nat) (uid max_len now : Int) (d : Nat)
    (h : lookup fs name = some d) :
    read_file fs name uid max_len now
      = if may_read (fs.inodes (fs.directory d).inode_id) uid then
          { status := Status.Ok
            ret := ((fs.inodes (fs.directory d).inode_id).size : Int)
            buffer := read_data fs (fs.inodes (fs.directory d).inode_id) max_len ++ [0]
            fs := append_log fs
              (ascii "Read file " ++ name ++ ascii " by UID " ++ fmt_int uid) now }
        else { status := Status.PermissionDenied, ret := -1, buffer := [], fs := fs } := by
  unfold read_file
  rw [h]

theorem read_file_absent (fs : simplefs) (name : List Nat) (uid max_len now : Int)
    (h : lookup fs name = none) :
    read_file fs name uid max_len now
      = { status := Status.NotFound, ret := -1, buffer := [], fs := fs } := by
  unfold read_file
  rw [h]

theorem may_read_owner (ino : inode) : may_read ino ino.owner_uid = true := by
  simp [may_read]

/-- After a `create_file` that passes the entry check with a name that fits the name field and
was absent, the name resolves to the new directory entry. -/
theorem create_file_lookup (fs : simplefs) (name permissions : List Nat) (uid : Int)
    (data : List Nat) (now now_log : Int)
    (h : ¬ (fs.inode_count ≥ MAX_INODES ∨ fs.block_count ≥ MAX_BLOCKS))
    (hname : name.length < MAX_NAME) (hfresh : lookup fs name = none) :
    lookup (create_file fs name permissions uid data now now_log).fs name
      = some fs.dir_count := by
  obtain ⟨-, -, -, -, hdir, -, -, hdc⟩ :=
    create_file_pass fs name permissions uid data now now_log h
  rw [lookup_append fs _ name hdc (by intro d hd; rw [hdir, upd_other _ _ _ _ (by omega)]),
    hfresh, hdir, upd_same]
  simp [strncpy_short _ _ hname, name_string, hname]

theorem new_inode_has_indirect (old : inode) (slot : Nat) (permissions : List Nat)
    (uid now : Int) (st0 : alloc_state) (data : List Nat) :
    (new_inode old slot permissions uid data now (alloc_blocks st0 data)).size
        ≤ 12 * BLOCK_SIZE
      ∨ (new_inode old slot permissions uid data now (alloc_blocks st0 data)).indirect_block
        ≠ -1 := by
  have hB : BLOCK_SIZE = 4096 := rfl
  show data.length ≤ 12 * BLOCK_SIZE ∨ (alloc_blocks st0 data).2 ≠ -1
  rw [alloc_blocks_indirect]
  by_cases h : data.length ≤ 12 * BLOCK_SIZE
  · exact Or.inl h
  · right
    rw [if_pos (by rw [hB] at h ⊢; omega)]
    omega

/-- Reading the inode that `create_file` has just written yields the data, cut at
`max_len - 1` bytes. -/
theorem read_data_created (fs : simplefs) (name permissions : List Nat) (uid : Int)
    (data : List Nat) (now now_log max_len : Int)
    (h : ¬ (fs.inode_count ≥ MAX_INODES ∨ fs.block_count ≥ MAX_BLOCKS))
    (hfit : fs.block_count + blocks_needed data.length ≤ MAX_BLOCKS) :
    read_data (create_file fs name permissions uid data now now_log).fs
        (new_inode (fs.inodes fs.inode_count) fs.inode_count permissions uid data now
          (alloc_blocks (alloc_start fs) data)) max_len
      = data.take (max_len - 1).toNat := by
  obtain ⟨-, -, hblk, -, -, -, -, -⟩ :=
    create_file_pass fs name permissions uid data now now_log h
  have hM : MAX_BLOCKS = 1024 := rfl
  rw [read_data_content _ _ _ (new_inode_has_indirect _ _ _ _ _ _ _),
    new_file_content _ (alloc_start fs) data _ _ _ _ _ hblk
      (by show fs.block_count + _ ≤ _; omega)]

/-! ## C1: round trip of `create_file` and `read_file` -/

theorem init_passes_check : ¬ (init_fs.inode_count ≥ MAX_INODES ∨ init_fs.block_count ≥ MAX_BLOCKS) := by
  decide

theorem full_store_block_count : full_store.block_count = 1024 := by
  have h := (create_file_pass init_fs [97] [] 0 (List.replicate (1023 * 4096) 65) 0 0
    init_passes_check).2.2.2.2.2.1
  unfold full_store
  rw [h, List.length_replicate]
  decide

/-- C1, counterexample: the state `full_store` is reachable, its inode table and directory have
free slots, and an empty file needs no block, yet `create_file` of an empty file under a new
name is refused with `CapacityExceeded`. -/
theorem empty_file_refused_on_full_store :
    Reachable full_store
    ∧ full_store.inode_count < MAX_INODES
    ∧ full_store.dir_count < MAX_INODES
    ∧ full_store.block_count + blocks_needed ([] : List Nat).length ≤ MAX_BLOCKS
    ∧ lookup full_store [98] = none
    ∧ (create_file full_store [98] [] 0 [] 0 0).status = Status.CapacityExceeded
    ∧ (create_file full_store [98] [] 0 [] 0 0).ret = -1 := by
  have hfull : full_store.inode_count ≥ MAX_INODES ∨ full_store.block_count ≥ MAX_BLOCKS := by
    right
    rw [full_store_block_count]
    decide
  refine ⟨Reachable.create_file _ _ _ _ _ _ _ Reachable.init, by decide, by decide, ?_,
    by decide, ?_, ?_⟩
  · rw [full_store_block_count]
    decide
  · rw [create_file_full _ _ _ _ _ _ _ hfull]
  · rw [create_file_full _ _ _ _ _ _ _ hfull]

/-- C1 (amended): for every state (so for every state reachable from `init_fs`), every name
shorter than 256 bytes that no directory entry bears, every permission string, uid and
content, if the inode table and the directory have a free slot, the block store has a free
block (the entry check asks for one even for an empty file) and enough free blocks for the
content, then `create_file` succeeds, and a following `read_file` of that name by the same uid
with `max_len` above the content length returns the content length and writes exactly the
content followed by the terminator. -/
theorem create_then_read_roundtrip (s : simplefs) (name permissions data : List Nat)
    (uid now now_log now_read max_len : Int)
    (hname : name.length < MAX_NAME) (hfresh : lookup s name = none)
    (hino : s.inode_count < MAX_INODES) (_hdir : s.dir_count < MAX_INODES)
    (hfree : s.block_count < MAX_BLOCKS)
    (hfit : s.block_count + blocks_needed data.length ≤ MAX_BLOCKS)
    (hmax : (data.length : Int) < max_len) :
    (create_file s name permissions uid data now now_log).status = Status.Ok
    ∧ (read_file (create_file s name permissions uid data now now_log).fs name uid max_len
        now_read).status = Status.Ok
    ∧ (read_file (create_file s name permissions uid data now now_log).fs name uid max_len
        now_read).ret = (data.length : Int)
    ∧ (read_file (create_file s name permissions uid data now now_log).fs name uid max_len
        now_read).buffer = data ++ [0] := by
  have h : ¬ (s.inode_count ≥ MAX_INODES ∨ s.block_count ≥ MAX_BLOCKS) := by
    intro hc; rcases hc with hc | hc <;> omega
  obtain ⟨hst, -, -, hinodes, hdir, -, -, -⟩ :=
    create_file_pass s name permissions uid data now now_log h
  have hlk := create_file_lookup s name permissions uid data now now_log h hname hfresh
  have hino2 : (create_file s name permissions uid data now now_log).fs.inodes
      ((create_file s name permissions uid data now now_log).fs.directory s.dir_count).inode_id
      = new_inode (s.inodes s.inode_count) s.inode_count permissions uid data now
          (alloc_blocks (alloc_start s) data) := by
    rw [hdir, upd_same, hinodes]
    exact upd_same _ _ _
  have hmay : may_read (new_inode (s.inodes s.inode_count) s.inode_count permissions uid data
      now (alloc_blocks (alloc_start s) data)) uid = true := may_read_owner _
  rw [read_file_found _ _ _ _ _ _ hlk, hino2, if_pos hmay]
  refine ⟨hst, rfl, rfl, ?_⟩
  show read_data _ _ _ ++ [0] = data ++ [0]
  rw [read_data_created s name permissions uid data now now_log max_len h hfit,
    List.take_of_length_le (by omega)]

/-- C1, witness: a file of two bytes created in the initial state. -/
theorem create_then_read_roundtrip_witness :
    ([102] : List Nat).length < MAX_NAME ∧ lookup init_fs [102] = none
    ∧ (create_file init_fs [102] [114, 119] 7 [104, 105] 1 2).status = Status.Ok
    ∧ (read_file (create_file init_fs [102] [114, 119] 7 [104, 105] 1 2).fs [102] 7 3 3).status
        = Status.Ok
    ∧ (read_file (create_file init_fs [102] [114, 119] 7 [104, 105] 1 2).fs [102] 7 3 3).ret
        = (([104, 105] : List Nat).length : Int)
    ∧ (read_file (create_file init_fs [102] [114, 119] 7 [104, 105] 1 2).fs [102] 7 3 3).buffer
        = [104, 105] ++ [0] :=
  ⟨by decide, by decide,
    create_then_read_roundtrip init_fs [102] [114, 119] [104, 105] 7 1 2 3 3
      (by decide) (by decide) (by decide) (by decide) (by decide) (by decide) (by decide)⟩

/-! ## Name resolution and permissions -/

theorem lookup_eq_none_iff_absent (fs : simplefs) (name : List Nat) :
    lookup fs name = none ↔ absent fs name := lookup_none_iff fs name

theorem lookup_eq_some_iff_resolves (fs : simplefs) (name : List Nat) (d : Nat) :
    lookup fs name = some d ↔ resolves fs name d := by
  constructor
  · exact lookup_some fs name d
  · intro ⟨h1, h2, h3⟩
    cases hl : lookup fs name with
    | none => exact absurd h2 ((lookup_none_iff fs name).1 hl d h1)
    | some e =>
      obtain ⟨e1, e2, e3⟩ := lookup_some fs name e hl
      rcases Nat.lt_trichotomy e d with h | h | h
      · exact absurd e2 (h3 e h)
      · rw [h]
      · exact absurd h2 (e3 d h)

theorem may_read_iff (ino : inode) (uid : Int) : may_read ino uid = true ↔ read_allowed ino uid := by
  unfold may_read read_allowed
  simp only [Bool.or_eq_true, Bool.and_eq_true, decide_eq_true_eq, or_assoc]
  constructor
  · rintro (h | h | h)
    · exact Or.inl h.symm
    · exact Or.inr (Or.inl ⟨h.1.symm, h.2⟩)
    · exact Or.inr (Or.inr h)
  · rintro (h | h | h)
    · exact Or.inl h.symm
    · exact Or.inr (Or.inl ⟨h.1.symm, h.2⟩)
    · exact Or.inr (Or.inr h)

theorem may_link_iff (ino : inode) (uid : Int) : may_link ino uid = true ↔ link_allowed ino uid := by
  unfold may_link link_allowed
  simp only [Bool.or_eq_true, Bool.and_eq_true, decide_eq_true_eq, or_assoc]
  constructor
  · rintro (h | h | h)
    · exact Or.inl h.symm
    · exact Or.inr (Or.inl ⟨h.1.symm, h.2⟩)
    · exact Or.inr (Or.inr h)
  · rintro (h | h | h)
    · exact Or.inl h.symm
    · exact Or.inr (Or.inl ⟨h.1.symm, h.2⟩)
    · exact Or.inr (Or.inr h)

theorem create_hard_link_found (fs : simplefs) (existing_name new_name : List Nat)
    (uid now : Int) (i : Nat) (h : lookup fs existing_name = some i) :
    create_hard_link fs existing_name new_name uid now
      = if may_link (fs.inodes (fs.directory i).inode_id) uid then
          { status := Status.Ok
            ret := 0
            fs := append_log
              { fs with
                inodes := upd fs.inodes (fs.directory i).inode_id
                  { fs.inodes (fs.directory i).inode_id with
                    ref_count := (fs.inodes (fs.directory i).inode_id).ref_count + 1 }
                directory := upd fs.directory fs.dir_count
                  { fs.directory fs.dir_count with
                    name := strncpy MAX_NAME new_name
                    inode_id := (fs.inodes (fs.directory i).inode_id).id
                    is_soft_link := 0 }
                dir_count := fs.dir_count + 1 }
              (ascii "Created hard link " ++ new_name ++ ascii " to " ++ existing_name
                ++ ascii " by UID " ++ fmt_int uid) now }
        else { status := Status.PermissionDenied, ret := -1, fs := fs } := by
  unfold create_hard_link
  rw [h]

theorem create_hard_link_absent (fs : simplefs) (existing_name new_name : List Nat)
    (uid now : Int) (h : lookup fs existing_name = none) :
    create_hard_link fs existing_name new_name uid now
      = { status := Status.NotFound, ret := -1, fs := fs } := by
  unfold create_hard_link
  rw [h]

/-! ## C2: the read permission rule -/

/-- C2, counterexample: in `group_file` the name `f` resolves to an inode with owner 3, group
id 3 and `p[3] = 'r'`; for the requesting uid -7 the mathematical `u mod 10` is 3, the group
id, so the rule as stated lets it read; the code computes `uid % 10 = -7` and denies. -/
theorem read_rule_negative_uid :
    resolves group_file [102] 0
    ∧ (group_file.inodes (group_file.directory 0).inode_id).owner_uid = 3
    ∧ (group_file.inodes (group_file.directory 0).inode_id).group_id = 3
    ∧ char_at (group_file.inodes (group_file.directory 0).inode_id).permissions 3 = 114
    ∧ (-7 : Int) % 10 = 3
    ∧ (read_file group_file [102] (-7) 10 3).status = Status.PermissionDenied
    ∧ (read_file group_file [102] (-7) 10 3).ret = -1 := by
  refine ⟨?_, ?_, ?_, ?_, ?_, ?_, ?_⟩ <;> decide

/-- C2 (amended): for every state and every name that resolves (first directory match) to an
inode, and every requesting uid, `read_file` succeeds (returning the inode's size) if and only
if the uid equals the owner, or `uid % 10` equals the group id and `p[3]` is `'r'`, or `p[6]`
is `'r'`, where `uid % 10` is the remainder of C (`Int.tmod`, of the sign of `uid`); for a uid
that is not negative this is the rule with the mathematical `uid mod 10`.  In every other
case it leaves through the permission-denied return with value -1.  In particular the owner
always reads, with `rw-r--r--` every uid reads, and with `p[6] = '-'` a uid that is neither
owner nor in the group is denied. -/
theorem read_permission_rule (s : simplefs) (name : List Nat) (uid max_len now : Int) (d : Nat)
    (h : resolves s name d) :
    ((read_file s name uid max_len now).status = Status.Ok
        ↔ read_allowed (s.inodes (s.directory d).inode_id) uid)
    ∧ (0 ≤ uid →
        ((read_file s name uid max_len now).status = Status.Ok
          ↔ (uid = (s.inodes (s.directory d).inode_id).owner_uid
            ∨ (uid % 10 = (s.inodes (s.directory d).inode_id).group_id
                ∧ char_at (s.inodes (s.directory d).inode_id).permissions 3 = 114)
            ∨ char_at (s.inodes (s.directory d).inode_id).permissions 6 = 114)))
    ∧ ((read_file s name uid max_len now).status = Status.Ok
        → (read_file s name uid max_len now).ret
            = ((s.inodes (s.directory d).inode_id).size : Int))
    ∧ ((read_file s name uid max_len now).status ≠ Status.Ok
        → (read_file s name uid max_len now).status = Status.PermissionDenied
          ∧ (read_file s name uid max_len now).ret = -1)
    ∧ (uid = (s.inodes (s.directory d).inode_id).owner_uid
        → (read_file s name uid max_len now).status = Status.Ok)
    ∧ ((s.inodes (s.directory d).inode_id).permissions = ascii "rw-r--r--"
        → (read_file s name uid max_len now).status = Status.Ok)
    ∧ (char_at (s.inodes (s.directory d).inode_id).permissions 6 = 45
        → uid ≠ (s.inodes (s.directory d).inode_id).owner_uid
        → Int.tmod uid 10 ≠ (s.inodes (s.directory d).inode_id).group_id
        → (read_file s name uid max_len now).status = Status.PermissionDenied
          ∧ (read_file s name uid max_len now).ret = -1) := by
  have hl := (lookup_eq_some_iff_resolves s name d).2 h
  have hmath : 0 ≤ uid →
      (read_allowed (s.inodes (s.directory d).inode_id) uid
        ↔ (uid = (s.inodes (s.directory d).inode_id).owner_uid
          ∨ (uid % 10 = (s.inodes (s.directory d).inode_id).group_id
              ∧ char_at (s.inodes (s.directory d).inode_id).permissions 3 = 114)
          ∨ char_at (s.inodes (s.directory d).inode_id).permissions 6 = 114)) := by
    intro h0
    unfold read_allowed
    rw [Int.tmod_eq_emod h0 (by decide)]
  rw [read_file_found s name uid max_len now d hl]
  by_cases hm : may_read (s.inodes (s.directory d).inode_id) uid = true
  · have ha := (may_read_iff _ _).1 hm
    rw [if_pos hm]
    refine ⟨⟨fun _ => ha, fun _ => rfl⟩, fun h0 => ⟨fun _ => (hmath h0).1 ha, fun _ => rfl⟩,
      fun _ => rfl, fun hn => absurd rfl hn, fun _ => rfl, fun _ => rfl, ?_⟩
    intro h6 hu hg
    exfalso
    rcases ha with ha | ha | ha
    · exact hu ha
    · exact hg ha.1
    · rw [h6] at ha; exact absurd ha (by decide)
  · have ha : ¬ read_allowed (s.inodes (s.directory d).inode_id) uid :=
      fun hx => hm ((may_read_iff _ _).2 hx)
    rw [if_neg hm]
    refine ⟨⟨fun hx => ?_, fun hx => absurd hx ha⟩,
      fun h0 => ⟨fun hx => ?_, fun hx => absurd ((hmath h0).2 hx) ha⟩, fun hx => ?_,
      fun _ => ⟨rfl, rfl⟩, fun hu => absurd (Or.inl hu) ha, fun hp => ?_,
      fun _ _ _ => ⟨rfl, rfl⟩⟩
    · exact Status.noConfusion hx
    · exact Status.noConfusion hx
    · exact Status.noConfusion hx
    · exfalso
      apply ha
      right; right
      rw [hp]
      decide

/-- C2, witness: in `one_file` the name `f` resolves to entry 0; uid 2002 is neither the owner
nor in group 1 and reads through the world-read bit. -/
theorem read_permission_rule_witness :
    resolves one_file [102] 0
    ∧ ((read_file one_file [102] 2002 10 3).status = Status.Ok
        ↔ read_allowed (one_file.inodes (one_file.directory 0).inode_id) 2002)
    ∧ (read_file one_file [102] 2002 10 3).status = Status.Ok :=
  ⟨by decide, (read_permission_rule one_file [102] 2002 10 3 0 (by decide)).1,
    ((read_permission_rule one_file [102] 2002 10 3 0 (by decide)).2.1 (by decide)).2
      (by decide)⟩

/-! ## Invariants of the reachable states -/

theorem inv_id_of_entry (s : simplefs) (h : inv s) (d : Nat) :
    (s.inodes (s.directory d).inode_id).id = (s.directory d).inode_id := by
  obtain ⟨-, h1, h2, h3⟩ := h
  rcases h3 d with hd | hd
  · exact h1 _ hd
  · rw [hd]
    by_cases hc : 0 < s.inode_count
    · exact h1 0 hc
    · exact h2 0 (by omega)

/-- The part of the state `read_file` never writes. -/
theorem read_file_frame (s : simplefs) (name : List Nat) (uid max_len now : Int) :
    (read_file s name uid max_len now).fs.blocks = s.blocks
    ∧ (read_file s name uid max_len now).fs.inodes = s.inodes
    ∧ (read_file s name uid max_len now).fs.directory = s.directory
    ∧ (read_file s name uid max_len now).fs.block_count = s.block_count
    ∧ (read_file s name uid max_len now).fs.inode_count = s.inode_count
    ∧ (read_file s name uid max_len now).fs.dir_count = s.dir_count := by
  cases hl : lookup s name with
  | none =>
    rw [read_file_absent _ _ _ _ _ hl]
    exact ⟨rfl, rfl, rfl, rfl, rfl, rfl⟩
  | some d =>
    rw [read_file_found _ _ _ _ _ _ hl]
    split <;> exact ⟨rfl, rfl, rfl, rfl, rfl, rfl⟩

theorem inv_init : inv init_fs := by
  refine ⟨fun k => Or.inl ?_, fun k hk => ?_, fun k _ => rfl, fun d => Or.inr rfl⟩
  · show 0 ≤ 12 * BLOCK_SIZE
    omega
  · exact absurd hk (Nat.not_lt_zero k)

theorem inv_create_file (s : simplefs) (name permissions : List Nat) (uid : Int)
    (data : List Nat) (now now_log : Int) (h : inv s) :
    inv (create_file s name permissions uid data now now_log).fs := by
  by_cases hg : s.inode_count ≥ MAX_INODES ∨ s.block_count ≥ MAX_BLOCKS
  · rw [create_file_full _ _ _ _ _ _ _ hg]
    exact h
  · obtain ⟨-, -, -, hinodes, hdir, -, hic, -⟩ :=
      create_file_pass s name permissions uid data now now_log hg
    obtain ⟨h0, h1, h2, h3⟩ := h
    unfold inv
    rw [hinodes, hdir, hic]
    refine ⟨fun k => ?_, fun k hk => ?_, fun k hk => ?_, fun d => ?_⟩
    · by_cases e : k = s.inode_count
      · rw [e, upd_same]
        exact new_inode_has_indirect _ _ _ _ _ _ _
      · rw [upd_other _ _ _ _ e]
        exact h0 k
    · by_cases e : k = s.inode_count
      · rw [e, upd_same]
        rfl
      · rw [upd_other _ _ _ _ e]
        exact h1 k (by omega)
    · rw [upd_other _ _ _ _ (by omega)]
      exact h2 k (by omega)
    · by_cases e : d = s.dir_count
      · rw [e, upd_same]
        left
        show s.inode_count < s.inode_count + 1
        omega
      · rw [upd_other _ _ _ _ e]
        rcases h3 d with hd | hd
        · left; omega
        · right; exact hd

theorem inv_read_file (s : simplefs) (name : List Nat) (uid max_len now : Int) (h : inv s) :
    inv (read_file s name uid max_len now).fs := by
  obtain ⟨-, hi, hd, -, hic, -⟩ := read_file_frame s name uid max_len now
  unfold inv
  rw [hi, hd, hic]
  exact h

theorem inv_create_hard_link (s : simplefs) (existing_name new_name : List Nat)
    (uid now : Int) (h : inv s) :
    inv (create_hard_link s existing_name new_name uid now).fs := by
  cases hl : lookup s existing_name with
  | none =>
    rw [create_hard_link_absent _ _ _ _ _ hl]
    exact h
  | some i =>
    rw [create_hard_link_found _ _ _ _ _ _ hl]
    by_cases hm : may_link (s.inodes (s.directory i).inode_id) uid = true
    · rw [if_pos hm]
      have hid := inv_id_of_entry s h i
      obtain ⟨h0, h1, h2, h3⟩ := h
      refine ⟨fun k => ?_, fun k hk => ?_, fun k hk => ?_, fun d => ?_⟩
      · show (upd s.inodes _ _ k).size ≤ _ ∨ (upd s.inodes _ _ k).indirect_block ≠ -1
        by_cases e : k = (s.directory i).inode_id
        · rw [e, upd_same]
          exact h0 _
        · rw [upd_other _ _ _ _ e]
          exact h0 k
      · show (upd s.inodes _ _ k).id = k
        by_cases e : k = (s.directory i).inode_id
        · rw [e, upd_same]
          exact hid
        · rw [upd_other _ _ _ _ e]
          exact h1 k hk
      · show (upd s.inodes _ _ k).id = 0
        by_cases e : k = (s.directory i).inode_id
        · rw [e, upd_same]
          show (s.inodes (s.directory i).inode_id).id = 0
          rw [← e]
          exact h2 k hk
        · rw [upd_other _ _ _ _ e]
          exact h2 k hk
      · show (upd s.directory _ _ d).inode_id < s.inode_count
          ∨ (upd s.directory _ _ d).inode_id = 0
        by_cases e : d = s.dir_count
        · rw [e, upd_same]
          show (s.inodes (s.directory i).inode_id).id < _ ∨ (s.inodes (s.directory i).inode_id).id = 0
          rw [hid]
          exact h3 i
        · rw [upd_other _ _ _ _ e]
          exact h3 d
    · rw [if_neg hm]
      exact h

theorem inv_create_soft_link (s : simplefs) (existing_name new_name : List Nat)
    (uid now : Int) (h : inv s) :
    inv (create_soft_link s existing_name new_name uid now).fs := by
  obtain ⟨h0, h1, h2, h3⟩ := h
  refine ⟨h0, h1, h2, fun d => ?_⟩
  show (upd s.directory _ _ d).inode_id < s.inode_count ∨ (upd s.directory _ _ d).inode_id = 0
  by_cases e : d = s.dir_count
  · rw [e, upd_same]
    exact h3 s.dir_count
  · rw [upd_other _ _ _ _ e]
    exact h3 d

theorem reachable_inv (s : simplefs) (h : Reachable s) : inv s := by
  induction h with
  | init => exact inv_init
  | create_file s name permissions uid data now now_log _ ih =>
    exact inv_create_file s name permissions uid data now now_log ih
  | read_file s name uid max_len now _ ih => exact inv_read_file s name uid max_len now ih
  | create_hard_link s e n uid now _ ih => exact inv_create_hard_link s e n uid now ih
  | create_soft_link s e n uid now _ ih => exact inv_create_soft_link s e n uid now ih

/-- A state reachable within capacity is reachable. -/
theorem within_reachable (s : simplefs) (h : Within s) : Reachable s := by
  induction h with
  | init => exact Reachable.init
  | step s c _ _ ih =>
    cases c with
    | create_file name permissions uid data now now_log =>
      exact Reachable.create_file s name permissions uid data now now_log ih
    | read_file name uid max_len now => exact Reachable.read_file s name uid max_len now ih
    | create_hard_link existing_name new_name uid now =>
      exact Reachable.create_hard_link s existing_name new_name uid now ih
    | create_soft_link existing_name new_name uid now =>
      exact Reachable.create_soft_link s existing_name new_name uid now ih

theorem within_inv (s : simplefs) (h : Within s) : inv s :=
  reachable_inv s (within_reachable s h)

/-- In a state reachable within capacity no counter exceeds the size of its array. -/
theorem within_capacity (s : simplefs) (h : Within s) :
    s.block_count ≤ MAX_BLOCKS ∧ s.inode_count ≤ MAX_INODES ∧ s.dir_count ≤ MAX_INODES := by
  induction h with
  | init => exact ⟨Nat.zero_le _, Nat.zero_le _, Nat.zero_le _⟩
  | step s c _ hfit ih =>
    obtain ⟨hb, hi, hd⟩ := ih
    cases c with
    | create_file name permissions uid data now now_log =>
      obtain ⟨hroom, hblocks⟩ := hfit
      show (create_file s name permissions uid data now now_log).fs.block_count ≤ _
        ∧ (create_file s name permissions uid data now now_log).fs.inode_count ≤ _
        ∧ (create_file s name permissions uid data now now_log).fs.dir_count ≤ _
      by_cases hg : s.inode_count ≥ MAX_INODES ∨ s.block_count ≥ MAX_BLOCKS
      · rw [create_file_full _ _ _ _ _ _ _ hg]
        exact ⟨hb, hi, hd⟩
      · obtain ⟨-, -, -, -, -, hbc, hic, hdc⟩ :=
          create_file_pass s name permissions uid data now now_log hg
        rw [hbc, hic, hdc]
        have hM : MAX_INODES = 128 := rfl
        rw [hM] at hg hroom ⊢
        omega
    | read_file name uid max_len now =>
      obtain ⟨-, -, -, hbc, hic, hdc⟩ := read_file_frame s name uid max_len now
      show (read_file s name uid max_len now).fs.block_count ≤ _
        ∧ (read_file s name uid max_len now).fs.inode_count ≤ _
        ∧ (read_file s name uid max_len now).fs.dir_count ≤ _
      rw [hbc, hic, hdc]
      exact ⟨hb, hi, hd⟩
    | create_hard_link existing_name new_name uid now =>
      have hroom : s.dir_count < MAX_INODES := hfit
      show (create_hard_link s existing_name new_name uid now).fs.block_count ≤ _
        ∧ (create_hard_link s existing_name new_name uid now).fs.inode_count ≤ _
        ∧ (create_hard_link s existing_name new_name uid now).fs.dir_count ≤ _
      cases hl : lookup s existing_name with
      | none =>
        rw [create_hard_link_absent _ _ _ _ _ hl]
        exact ⟨hb, hi, hd⟩
      | some i =>
        rw [create_hard_link_found _ _ _ _ _ _ hl]
        split
        · exact ⟨hb, hi, hroom⟩
        · exact ⟨hb, hi, hd⟩
    | create_soft_link existing_name new_name uid now =>
      have hroom : s.dir_count < MAX_INODES := hfit
      exact ⟨hb, hi, hroom⟩

theorem one_file_within : Within one_file :=
  Within.step init_fs (call.create_file [102] (ascii "rw-r--r--") 1001 [104, 105] 1 2)
    Within.init (by decide)

/-! ## C3: silent truncation on read -/

theorem file_content_length (s : simplefs) (ino : inode) :
    (file_content s ino).length = ino.size := by
  simp [file_content]

theorem one_file_reachable : Reachable one_file :=
  Reachable.create_file _ _ _ _ _ _ _ Reachable.init

/-- A successful `create_hard_link` resolved its first name and passed the link rule. -/
theorem create_hard_link_ok_inv (s : simplefs) (existing_name new_name : List Nat)
    (uid now : Int) (hok : (create_hard_link s existing_name new_name uid now).status = Status.Ok) :
    ∃ i, lookup s existing_name = some i
      ∧ may_link (s.inodes (s.directory i).inode_id) uid = true := by
  cases hl : lookup s existing_name with
  | none =>
    rw [create_hard_link_absent _ _ _ _ _ hl] at hok
    exact Status.noConfusion hok
  | some i =>
    rw [create_hard_link_found _ _ _ _ _ _ hl] at hok
    by_cases hm : may_link (s.inodes (s.directory i).inode_id) uid = true
    · exact ⟨i, rfl, hm⟩
    · rw [if_neg hm] at hok
      exact Status.noConfusion hok

/-- The state built by a `create_hard_link` that resolved its first name to entry `i` and
passed the link rule. -/
theorem create_hard_link_pass (s : simplefs) (existing_name new_name : List Nat)
    (uid now : Int) (i : Nat) (hl : lookup s existing_name = some i)
    (hm : may_link (s.inodes (s.directory i).inode_id) uid = true) :
    (create_hard_link s existing_name new_name uid now).status = Status.Ok
    ∧ (create_hard_link s existing_name new_name uid now).ret = 0
    ∧ (create_hard_link s existing_name new_name uid now).fs.blocks = s.blocks
    ∧ (create_hard_link s existing_name new_name uid now).fs.inodes
        = upd s.inodes (s.directory i).inode_id
            { s.inodes (s.directory i).inode_id with
              ref_count := (s.inodes (s.directory i).inode_id).ref_count + 1 }
    ∧ (create_hard_link s existing_name new_name uid now).fs.directory
        = upd s.directory s.dir_count
            { s.directory s.dir_count with
              name := strncpy MAX_NAME new_name
              inode_id := (s.inodes (s.directory i).inode_id).id
              is_soft_link := 0 }
    ∧ (create_hard_link s existing_name new_name uid now).fs.block_count = s.block_count
    ∧ (create_hard_link s existing_name new_name uid now).fs.inode_count = s.inode_count
    ∧ (create_hard_link s existing_name new_name uid now).fs.dir_count = s.dir_count + 1 := by
  rw [create_hard_link_found _ _ _ _ _ _ hl, if_pos hm]
  exact ⟨rfl, rfl, rfl, rfl, rfl, rfl, rfl, rfl⟩

/-- Two names that resolve to entries with the same `inode_id` read alike. -/
theorem read_file_same_inode (fs : simplefs) (n1 n2 : List Nat) (d1 d2 : Nat)
    (h1 : lookup fs n1 = some d1) (h2 : lookup fs n2 = some d2)
    (he : (fs.directory d1).inode_id = (fs.directory d2).inode_id)
    (u max_len t1 t2 : Int) :
    (read_file fs n1 u max_len t1).status = (read_file fs n2 u max_len t2).status
    ∧ (read_file fs n1 u max_len t1).ret = (read_file fs n2 u max_len t2).ret
    ∧ (read_file fs n1 u max_len t1).buffer = (read_file fs n2 u max_len t2).buffer := by
  rw [read_file_found _ _ _ _ _ _ h1, read_file_found _ _ _ _ _ _ h2, he]
  split <;> exact ⟨rfl, rfl, rfl⟩

set_option maxRecDepth 100000 in
/-- C4, counterexample.  (1) In the reachable state `two_files`, linking `f` under the name
`g`, which is already the name of another file, succeeds; afterwards reading `g` returns 1 and
the byte `z` while reading `f` returns 2 and `hi`.  (2) In `one_file`, linking `f` under a name
of 257 bytes, borne by no entry, succeeds; the name field keeps 256 bytes, so reading the new
name finds nothing while reading `f` returns 2.  Both states are reachable within capacity
and their directories have room. -/
theorem hard_link_reads_differ :
    (Reachable two_files
      ∧ (create_hard_link two_files [102] [103] 1001 3).status = Status.Ok
      ∧ (read_file (create_hard_link two_files [102] [103] 1001 3).fs [103] 1001 10 4).ret = 1
      ∧ (read_file (create_hard_link two_files [102] [103] 1001 3).fs [103] 1001 10 4).buffer
          = [122, 0]
      ∧ (read_file (create_hard_link two_files [102] [103] 1001 3).fs [102] 1001 10 4).ret = 2
      ∧ (read_file (create_hard_link two_files [102] [103] 1001 3).fs [102] 1001 10 4).buffer
          = [104, 105, 0])
    ∧ (Reachable one_file
      ∧ absent one_file long_name
      ∧ (create_hard_link one_file [102] long_name 1001 3).status = Status.Ok
      ∧ (read_file (create_hard_link one_file [102] long_name 1001 3).fs long_name 1001 10 4).ret
          = -1
      ∧ (read_file (create_hard_link one_file [102] long_name 1001 3).fs [102] 1001 10 4).ret
          = 2)
    ∧ (Within two_files ∧ two_files.dir_count < MAX_INODES
      ∧ Within one_file ∧ one_file.dir_count < MAX_INODES) := by
  refine ⟨⟨Reachable.create_file _ _ _ _ _ _ _ one_file_reachable, ?_, ?_, ?_, ?_, ?_⟩,
    ⟨one_file_reachable, ?_, ?_, ?_, ?_⟩,
    ⟨Within.step one_file (call.create_file [103] (ascii "rw-r--r--") 1001 [122] 1 2)
      one_file_within (by decide), ?_, one_file_within, ?_⟩⟩ <;> decide

/-- C4 (amended): for every state reachable within capacity whose directory has a free slot,
all names `A`, `B` with `B` shorter than 256 bytes and borne by no directory entry, and every
uid, after `create_hard_link(A, B, uid)` succeeds, `read_file(B, u, buffer, max_len)` and
`read_file(A, u, buffer, max_len)` give the same return value and the same buffer contents
for every reader `u` and every `max_len`. -/
theorem hard_link_shares (s : simplefs) (A B : List Nat) (uid now : Int)
    (hr : Within s) (_hroom : s.dir_count < MAX_INODES)
    (hB : B.length < MAX_NAME) (hfresh : absent s B)
    (hok : (create_hard_link s A B uid now).status = Status.Ok)
    (u max_len t1 t2 : Int) :
    (read_file (create_hard_link s A B uid now).fs B u max_len t1).status
        = (read_file (create_hard_link s A B uid now).fs A u max_len t2).status
    ∧ (read_file (create_hard_link s A B uid now).fs B u max_len t1).ret
        = (read_file (create_hard_link s A B uid now).fs A u max_len t2).ret
    ∧ (read_file (create_hard_link s A B uid now).fs B u max_len t1).buffer
        = (read_file (create_hard_link s A B uid now).fs A u max_len t2).buffer := by
  obtain ⟨i, hl, hm⟩ := create_hard_link_ok_inv s A B uid now hok
  obtain ⟨-, -, -, -, hdir, -, -, hdc⟩ := create_hard_link_pass s A B uid now i hl hm
  have hi := (lookup_some s A i hl).1
  have hkeep : ∀ d, d < s.dir_count →
      (create_hard_link s A B uid now).fs.directory d = s.directory d := by
    intro d hd
    rw [hdir, upd_other _ _ _ _ (by omega)]
  have hlA : lookup (create_hard_link s A B uid now).fs A = some i := by
    rw [lookup_append s _ A hdc hkeep, hl]
    rfl
  have hlB : lookup (create_hard_link s A B uid now).fs B = some s.dir_count := by
    rw [lookup_append s _ B hdc hkeep, (lookup_eq_none_iff_absent s B).2 hfresh, hdir, upd_same]
    simp [strncpy_short _ _ hB, name_string, hB]
  apply read_file_same_inode _ B A _ _ hlB hlA
  rw [hdir, upd_same, upd_other _ _ _ _ (by omega)]
  exact inv_id_of_entry s (within_inv s hr) i

/-- C4, witness: in `one_file`, the owner links `f` under the new name `g`. -/
theorem hard_link_shares_witness :
    Within one_file ∧ one_file.dir_count < MAX_INODES
    ∧ ([103] : List Nat).length < MAX_NAME ∧ absent one_file [103]
    ∧ (create_hard_link one_file [102] [103] 1001 3).status = Status.Ok
    ∧ (read_file (create_hard_link one_file [102] [103] 1001 3).fs [103] 2002 10 4).ret
        = (read_file (create_hard_link one_file [102] [103] 1001 3).fs [102] 2002 10 5).ret
    ∧ (read_file (create_hard_link one_file [102] [103] 1001 3).fs [103] 2002 10 4).buffer
        = (read_file (create_hard_link one_file [102] [103] 1001 3).fs [102] 2002 10 5).buffer :=
  ⟨one_file_within, by decide, by decide, by decide, by decide,
    (hard_link_shares one_file [102] [103] 1001 3 one_file_within (by decide) (by decide)
      (by decide) (by decide) 2002 10 4 5).2⟩

/-! ## C5: failure conditions of `create_hard_link` -/

/-- When the content fits in the free blocks and the directory has a free slot, `create_file`
returns -1 (through its capacity-exceeded return) if and only if `inode_count >= 128` or
`block_count >= 1024` at the time of the call, and when it does the state is unchanged. -/
theorem create_file_check_within (s : simplefs) (name permissions : List Nat) (uid : Int)
    (data : List Nat) (now now_log : Int) (_hroom : s.dir_count < MAX_INODES)
    (_hfit : s.block_count + blocks_needed data.length ≤ MAX_BLOCKS) :
    ((create_file s name permissions uid data now now_log).status = Status.CapacityExceeded
        ↔ (s.inode_count ≥ 128 ∨ s.block_count ≥ 1024))
    ∧ ((create_file s name permissions uid data now now_log).ret = -1
        ↔ (s.inode_count ≥ 128 ∨ s.block_count ≥ 1024))
    ∧ ((s.inode_count ≥ 128 ∨ s.block_count ≥ 1024)
        → (create_file s name permissions uid data now now_log).fs = s) := by
  have hg : (s.inode_count ≥ 128 ∨ s.block_count ≥ 1024)
      ↔ (s.inode_count ≥ MAX_INODES ∨ s.block_count ≥ MAX_BLOCKS) := Iff.rfl
  by_cases h : s.inode_count ≥ MAX_INODES ∨ s.block_count ≥ MAX_BLOCKS
  · rw [create_file_full _ _ _ _ _ _ _ h]
    exact ⟨⟨fun _ => hg.2 h, fun _ => rfl⟩, ⟨fun _ => hg.2 h, fun _ => rfl⟩, fun _ => rfl⟩
  · obtain ⟨hst, hret, -⟩ := create_file_pass s name permissions uid data now now_log h
    rw [hst, hret]
    refine ⟨⟨fun hx => Status.noConfusion hx, fun hx => absurd (hg.1 hx) h⟩,
      ⟨fun hx => ?_, fun hx => absurd (hg.1 hx) h⟩, fun hx => absurd (hg.1 hx) h⟩
    omega

/-- Byte `j` of chunk `c` of the content lands, transformed, at offset `j` of the block that
`create_file` takes for that chunk. -/
theorem create_file_chunk_written (s : simplefs) (name permissions : List Nat) (uid : Int)
    (data : List Nat) (now now_log : Int)
    (h : ¬ (s.inode_count ≥ MAX_INODES ∨ s.block_count ≥ MAX_BLOCKS)) (c j : Nat)
    (hc : c < (data.length + BLOCK_SIZE - 1) / BLOCK_SIZE)
    (hj : j < min BLOCK_SIZE (data.length - c * BLOCK_SIZE)) :
    (create_file s name permissions uid data now now_log).fs.blocks (chunk_block s.block_count c) j
      = data.getD (c * BLOCK_SIZE + j) 0 ^^^ 0x55 := by
  obtain ⟨-, -, hblk, -⟩ := create_file_pass s name permissions uid data now now_log h
  rw [hblk]
  exact alloc_blocks_data (alloc_start s) data c j hc hj

theorem nearly_full_counts :
    nearly_full.block_count = 1023 ∧ nearly_full.inode_count = 1
    ∧ nearly_full.dir_count = 1 := by
  obtain ⟨-, -, -, -, -, hbc, hic, hdc⟩ :=
    create_file_pass init_fs [97] [] 0 (List.replicate (1022 * 4096) 65) 0 0 init_passes_check
  unfold nearly_full
  rw [hbc, hic, hdc, List.length_replicate]
  exact ⟨by decide, rfl, rfl⟩

theorem nearly_full_within : Within nearly_full := by
  refine Within.step init_fs (call.create_file [97] [] 0 (List.replicate (1022 * 4096) 65) 0 0)
    Within.init ?_
  show init_fs.dir_count < MAX_INODES
    ∧ init_fs.block_count + blocks_needed (List.replicate (1022 * 4096) 65).length ≤ MAX_BLOCKS
  rw [List.length_replicate]
  exact ⟨by decide, by decide⟩

/-- C6, the code at the failing input: `nearly_full` is reachable within capacity and has one
inode and one free block (`inode_count = 1`, `block_count = 1023`).  A `create_file` of 4296
bytes `0xAA` needs two blocks.  Neither condition of the entry check holds, so the call does
not leave through the capacity return: it goes on to its last `return`, takes inode slot 1 and
two block indices (`block_count = 1025`), and writes the bytes `0xAA ^ 0x55 = 0xFF` of the
second chunk at block index 1024, past the last block of the store, among them at offsets 96
to 99. -/
theorem capacity_check_misses_overrun :
    Within nearly_full
    ∧ nearly_full.inode_count = 1
    ∧ nearly_full.block_count = 1023
    ∧ ¬ (nearly_full.inode_count ≥ 128 ∨ nearly_full.block_count ≥ 1024)
    ∧ blocks_needed (List.replicate 4296 170).length = 2
    ∧ (create_file nearly_full [98] [] 0 (List.replicate 4296 170) 0 0).status = Status.Ok
    ∧ (create_file nearly_full [98] [] 0 (List.replicate 4296 170) 0 0).fs.inode_count = 2
    ∧ (create_file nearly_full [98] [] 0 (List.replicate 4296 170) 0 0).fs.block_count = 1025
    ∧ (∀ j, 96 ≤ j → j < 100 →
        (create_file nearly_full [98] [] 0 (List.replicate 4296 170) 0 0).fs.blocks 1024 j
          = 255) := by
  obtain ⟨hbc, hic, -⟩ := nearly_full_counts
  have hg : ¬ (nearly_full.inode_count ≥ MAX_INODES ∨ nearly_full.block_count ≥ MAX_BLOCKS) := by
    rw [hbc, hic]
    decide
  obtain ⟨hst, -, hblk, -, -, hbc2, hic2, -⟩ :=
    create_file_pass nearly_full [98] [] 0 (List.replicate 4296 170) 0 0 hg
  have hlen : (List.replicate 4296 170).length = 4296 := List.length_replicate _ _
  refine ⟨nearly_full_within, hic, hbc, hg, ?_, hst, ?_, ?_, ?_⟩
  · rw [hlen]
    decide
  · rw [hic2, hic]
  · rw [hbc2, hbc, hlen]
    decide
  · intro j h1 h2
    have hd := create_file_chunk_written nearly_full [98] [] 0 (List.replicate 4296 170) 0 0 hg 1 j
      (by rw [hlen]; decide)
      (by
        rw [hlen]
        have : min BLOCK_SIZE (4296 - 1 * BLOCK_SIZE) = 200 := by decide
        omega)
    rw [hbc] at hd
    have hcb : chunk_block 1023 1 = 1024 := by decide
    rw [hcb] at hd
    rw [hd, List.getD_eq_getElem?_getD, List.getElem?_replicate,
      if_pos (by show 1 * 4096 + j < 4296; omega)]
    decide

/-! ## C7: the block store can be overrun -/

theorem huge_data_blocks : blocks_needed huge_data.length = 1025 := by
  unfold huge_data
  rw [List.length_replicate]
  decide

/-- C7, the code at the failing input: in the initial state a content of 1024 full blocks
needs 1025 blocks, more than the 1024 of the store; `create_file` passes its entry check and
does not return -1 (here it returns the id 0 of the new inode; in the C object the write past
the store lands on the inode table, and the id returned is the overwritten one), leaves
`block_count = 1025` in a reachable state, and has written content into block index 1024,
past the end of the store. -/
theorem create_file_overruns_store :
    init_fs.block_count + blocks_needed huge_data.length > MAX_BLOCKS
    ∧ (create_file init_fs [98] [] 1001 huge_data 0 0).status = Status.Ok
    ∧ (create_file init_fs [98] [] 1001 huge_data 0 0).ret = 0
    ∧ Reachable (create_file init_fs [98] [] 1001 huge_data 0 0).fs
    ∧ (create_file init_fs [98] [] 1001 huge_data 0 0).fs.block_count = 1025
    ∧ (create_file init_fs [98] [] 1001 huge_data 0 0).fs.blocks 1024 0 = 65 ^^^ 0x55 := by
  obtain ⟨hst, hret, hblk, -, -, hbc, -, -⟩ :=
    create_file_pass init_fs [98] [] 1001 huge_data 0 0 init_passes_check
  have hlen : huge_data.length = 1024 * 4096 := by
    unfold huge_data
    rw [List.length_replicate]
  refine ⟨?_, hst, hret, Reachable.create_file _ _ _ _ _ _ _ Reachable.init, ?_, ?_⟩
  · rw [huge_data_blocks]
    decide
  · rw [hbc, huge_data_blocks]
    rfl
  · have hd := alloc_blocks_data (alloc_start init_fs) huge_data 1023 0
      (by rw [hlen]; decide) (by rw [hlen]; decide)
    have hcb : chunk_block (alloc_start init_fs).block_count 1023 = 1024 := by decide
    rw [hcb] at hd
    rw [hblk, hd]
    have hget : huge_data.getD (1023 * BLOCK_SIZE + 0) 0 = 65 := by
      unfold huge_data
      rw [List.getD_eq_getElem?_getD, List.getElem?_replicate, if_pos (by decide)]
      rfl
    rw [hget]

/-! ## C8: the directory has no capacity check -/

theorem soft_links_dir_count (n : Nat) : (soft_links n).dir_count = n := by
  induction n with
  | zero => rfl
  | succ k ih =>
    show (soft_links k).dir_count + 1 = k + 1
    rw [ih]

theorem soft_links_log_count (n : Nat) : (soft_links n).log_count = n := by
  induction n with
  | zero => rfl
  | succ k ih =>
    show (soft_links k).log_count + 1 = k + 1
    rw [ih]

theorem soft_links_reachable (n : Nat) : Reachable (soft_links n) := by
  induction n with
  | zero => exact Reachable.init
  | succ k ih => exact Reachable.create_soft_link _ _ _ _ _ ih

theorem create_soft_link_directory (s : simplefs) (existing_name new_name : List Nat)
    (uid now : Int) :
    (create_soft_link s existing_name new_name uid now).fs.directory
      = upd s.directory s.dir_count
          { s.directory s.dir_count with
            name := strncpy MAX_NAME new_name, link_path := strncpy MAX_NAME existing_name,
            is_soft_link := 1 } := rfl

/-- Up to 128 soft links made from `init_fs` stay within capacity. -/
theorem soft_links_within (n : Nat) (h : n ≤ MAX_INODES) : Within (soft_links n) := by
  induction n with
  | zero => exact Within.init
  | succ k ih =>
    refine Within.step (soft_links k) (call.create_soft_link [116] [108] 0 0)
      (ih (Nat.le_of_succ_le h)) ?_
    show (soft_links k).dir_count < MAX_INODES
    rw [soft_links_dir_count]
    exact h

/-- C8, the code at the failing input: after 128 soft links the directory is full
(`dir_count = 128`) in a reachable state; one more `create_soft_link` does not fail: it
returns success (0) and leaves a reachable state with `dir_count = 129`, having written its
entry at index 128, past the last slot of the directory.  The state before the call is
reachable within capacity. -/
theorem directory_overrun :
    Reachable (soft_links 128)
    ∧ (soft_links 128).dir_count = MAX_INODES
    ∧ (create_soft_link (soft_links 128) [116] [108] 0 0).status = Status.Ok
    ∧ (create_soft_link (soft_links 128) [116] [108] 0 0).ret = 0
    ∧ Reachable (create_soft_link (soft_links 128) [116] [108] 0 0).fs
    ∧ (create_soft_link (soft_links 128) [116] [108] 0 0).fs.dir_count = 129
    ∧ ¬ (create_soft_link (soft_links 128) [116] [108] 0 0).fs.dir_count ≤ MAX_INODES
    ∧ Within (soft_links 128)
    ∧ ((create_soft_link (soft_links 128) [116] [108] 0 0).fs.directory 128).name = [108]
    ∧ ((create_soft_link (soft_links 128) [116] [108] 0 0).fs.directory 128).is_soft_link = 1 := by
  have h : (create_soft_link (soft_links 128) [116] [108] 0 0).fs.dir_count = 129 :=
    soft_links_dir_count 129
  have hd : (create_soft_link (soft_links 128) [116] [108] 0 0).fs.directory 128
      = { (soft_links 128).directory 128 with
          name := strncpy MAX_NAME [108], link_path := strncpy MAX_NAME [116],
          is_soft_link := 1 } := by
    rw [create_soft_link_directory, soft_links_dir_count, upd_same]
  refine ⟨soft_links_reachable 128, soft_links_dir_count 128, rfl, rfl,
    soft_links_reachable 129, h, ?_, soft_links_within 128 (Nat.le_refl _), ?_, ?_⟩
  · rw [h]
    decide
  · rw [hd]
    rfl
  · rw [hd]

/-! ## C9: reading a soft link -/

/-- C9, the code at the failing input (the soft-link test of the driver): `hello_file` is
reachable within capacity, its directory has room, and the name `file1_soft.txt` is borne by
no entry.  After `create_soft_link` a `read_file` of that name does not leave through the
not-found return: it matches the soft-link entry (entry 1, flag set) by name, follows its
never-assigned `inode_id` (0) and returns the size and the content of `file1.txt`. -/
theorem soft_link_read_returns_inode_zero :
    Reachable hello_file
    ∧ absent hello_file (ascii "file1_soft.txt")
    ∧ (read_file
        (create_soft_link hello_file (ascii "file1.txt") (ascii "file1_soft.txt") 1001 3).fs
        (ascii "file1_soft.txt") 1001 50000 4).status = Status.Ok
    ∧ (read_file
        (create_soft_link hello_file (ascii "file1.txt") (ascii "file1_soft.txt") 1001 3).fs
        (ascii "file1_soft.txt") 1001 50000 4).ret = 18
    ∧ (read_file
        (create_soft_link hello_file (ascii "file1.txt") (ascii "file1_soft.txt") 1001 3).fs
        (ascii "file1_soft.txt") 1001 50000 4).buffer = ascii "Hello, Filesystem!" ++ [0]
    ∧ Within hello_file
    ∧ hello_file.dir_count < MAX_INODES
    ∧ resolves
        (create_soft_link hello_file (ascii "file1.txt") (ascii "file1_soft.txt") 1001 3).fs
        (ascii "file1_soft.txt") 1
    ∧ ((create_soft_link hello_file (ascii "file1.txt") (ascii "file1_soft.txt") 1001 3).fs.directory
        1).is_soft_link = 1
    ∧ ((create_soft_link hello_file (ascii "file1.txt") (ascii "file1_soft.txt") 1001 3).fs.directory
        1).inode_id = 0 := by
  refine ⟨Reachable.create_file _ _ _ _ _ _ _ Reachable.init, ?_, ?_, ?_, ?_,
    Within.step init_fs
      (call.create_file (ascii "file1.txt") (ascii "rw-r--r--") 1001
        (ascii "Hello, Filesystem!") 1 2) Within.init (by decide), ?_, ?_, ?_, ?_⟩ <;> decide

/-! ## C10: the first entry of a name wins -/

/-- The stored content of a file is the same in two block stores that agree below `B`, when
the data blocks and the indirect block of the file lie below `B`. -/
theorem file_content_frame (fs1 fs2 : simplefs) (ino : inode) (B : Nat)
    (hagree : ∀ b, b < B → ∀ j, fs2.blocks b j = fs1.blocks b j)
    (hdata : ∀ c, c < (ino.size + BLOCK_SIZE - 1) / BLOCK_SIZE → block_of fs1 ino c < B)
    (hind : (ino.size + BLOCK_SIZE - 1) / BLOCK_SIZE > 12 → ino.indirect_block.toNat < B) :
    file_content fs2 ino = file_content fs1 ino := by
  have hB : BLOCK_SIZE = 4096 := rfl
  unfold file_content
  apply List.map_congr_left
  intro k hk
  rw [List.mem_range] at hk
  have hc : k / BLOCK_SIZE < (ino.size + BLOCK_SIZE - 1) / BLOCK_SIZE := by
    rw [hB]; omega
  have hbo : block_of fs2 ino (k / BLOCK_SIZE) = block_of fs1 ino (k / BLOCK_SIZE) := by
    unfold block_of
    by_cases h12 : k / BLOCK_SIZE < 12
    · rw [if_pos h12, if_pos h12]
    · rw [if_neg h12, if_neg h12]
      have hfun : fs2.blocks ino.indirect_block.toNat = fs1.blocks ino.indirect_block.toNat :=
        funext (hagree _ (hind (by omega)))
      rw [hfun]
  unfold stored_byte
  rw [hbo, hagree _ (hdata _ hc)]

theorem chunk_block_lt (bc size c : Nat) (hc : c < (size + BLOCK_SIZE - 1) / BLOCK_SIZE) :
    chunk_block bc c < bc + blocks_needed size := by
  unfold chunk_block blocks_needed
  dsimp only
  split <;> split <;> omega

/-- A later `create_file` does not change the content of the file a `create_file` has
written. -/
theorem created_content_kept (s : simplefs) (name permissions : List Nat) (uid : Int)
    (data : List Nat) (now now_log : Int) (name2 permissions2 : List Nat) (uid2 : Int)
    (data2 : List Nat) (now2 now_log2 : Int)
    (h : ¬ (s.inode_count ≥ MAX_INODES ∨ s.block_count ≥ MAX_BLOCKS))
    (hfit : s.block_count + blocks_needed data.length ≤ MAX_BLOCKS) :
    file_content
        (create_file (create_file s name permissions uid data now now_log).fs name2 permissions2
          uid2 data2 now2 now_log2).fs
        (new_inode (s.inodes s.inode_count) s.inode_count permissions uid data now
          (alloc_blocks (alloc_start s) data))
      = data := by
  have hM : MAX_BLOCKS = 1024 := rfl
  obtain ⟨-, -, hblk, -, -, hbc, -, -⟩ :=
    create_file_pass s name permissions uid data now now_log h
  have hcap : (alloc_start s).block_count + blocks_needed data.length ≤ 4294967296 := by
    show s.block_count + _ ≤ _
    omega
  have hcontent := new_file_content (create_file s name permissions uid data now now_log).fs
    (alloc_start s) data (s.inodes s.inode_count) s.inode_count permissions uid now hblk hcap
  refine Eq.trans ?_ hcontent
  apply file_content_frame _ _ _ (s.block_count + blocks_needed data.length)
  · intro b hb j
    by_cases h2 : (create_file s name permissions uid data now now_log).fs.inode_count
        ≥ MAX_INODES
        ∨ (create_file s name permissions uid data now now_log).fs.block_count ≥ MAX_BLOCKS
    · rw [create_file_full _ _ _ _ _ _ _ h2]
    · obtain ⟨-, -, hblk2, -⟩ := create_file_pass
        (create_file s name permissions uid data now now_log).fs name2 permissions2 uid2 data2
        now2 now_log2 h2
      rw [hblk2]
      apply alloc_blocks_frame
      show b < (create_file s name permissions uid data now now_log).fs.block_count
      rw [hbc]
      exact hb
  · intro c hc
    rw [new_inode_block_of _ (alloc_start s) data _ _ _ _ _ c hblk hcap hc]
    exact chunk_block_lt s.block_count data.length c hc
  · intro ht
    have ht2 : (data.length + BLOCK_SIZE - 1) / BLOCK_SIZE > 12 := ht
    show (alloc_blocks (alloc_start s) data).2.toNat < _
    rw [alloc_blocks_indirect, if_pos ht2, Int.toNat_ofNat]
    show s.block_count + 12 < _
    unfold blocks_needed
    dsimp only
    rw [if_pos ht2]
    omega

set_option maxRecDepth 100000 in
/-- C10, counterexample.  (1) A name of 257 bytes, borne by no entry of `init_fs`: both
`create_file` calls succeed, but the name field keeps 256 bytes and `read_file` of the name
finds nothing (-1).  (2) With room for both files in `init_fs` (two inodes, two directory
slots, 1024 + 0 blocks), a first content of 1023 full blocks fills the store and the second
`create_file`, of an empty content under the same name, is refused. -/
theorem duplicate_name_failures :
    (absent init_fs long_name
      ∧ (create_file init_fs long_name [] 7 [104, 105] 1 2).status = Status.Ok
      ∧ (create_file (create_file init_fs long_name [] 7 [104, 105] 1 2).fs long_name [] 7
          [122] 3 4).status = Status.Ok
      ∧ (read_file (create_file (create_file init_fs long_name [] 7 [104, 105] 1 2).fs long_name
          [] 7 [122] 3 4).fs long_name 7 10 5).status = Status.NotFound
      ∧ (read_file (create_file (create_file init_fs long_name [] 7 [104, 105] 1 2).fs long_name
          [] 7 [122] 3 4).fs long_name 7 10 5).ret = -1)
    ∧ (absent init_fs [97]
      ∧ init_fs.inode_count + 2 ≤ MAX_INODES
      ∧ init_fs.dir_count + 2 ≤ MAX_INODES
      ∧ init_fs.block_count + blocks_needed (List.replicate (1023 * 4096) 65).length
          + blocks_needed ([] : List Nat).length ≤ MAX_BLOCKS
      ∧ (create_file init_fs [97] [] 0 (List.replicate (1023 * 4096) 65) 0 0).status = Status.Ok
      ∧ (create_file (create_file init_fs [97] [] 0 (List.replicate (1023 * 4096) 65) 0 0).fs
          [97] [] 0 [] 0 0).status = Status.CapacityExceeded) := by
  have hfull : full_store.inode_count ≥ MAX_INODES ∨ full_store.block_count ≥ MAX_BLOCKS := by
    right
    rw [full_store_block_count]
    decide
  refine ⟨⟨by decide, by decide, by decide, by decide, by decide⟩,
    ⟨by decide, by decide, by decide, ?_, by decide, ?_⟩⟩
  · rw [List.length_replicate]
    decide
  · show (create_file full_store [97] [] 0 [] 0 0).status = Status.CapacityExceeded
    rw [create_file_full _ _ _ _ _ _ _ hfull]

/-- C10 (amended): for every state (so every reachable one), every name `n` shorter than 256
bytes borne by no directory entry, if the inode table and the directory have two free slots,
the first content leaves a free block for the entry check of the second call and both
contents fit in the block store, then `create_file(n, p1, u, c1)` followed by
`create_file(n, p2, u, c2)` both succeed, and `read_file(n, u, buffer, max_len)` with
`max_len > |c1|` returns `|c1|` and writes `c1` followed by the terminator: the earliest entry
of the name is the one read. -/
theorem first_entry_wins (s : simplefs) (n p1 p2 c1 c2 : List Nat)
    (u t1 t2 t3 t4 t5 max_len : Int)
    (hname : n.length < MAX_NAME) (hfresh : absent s n)
    (hino : s.inode_count + 2 ≤ MAX_INODES) (_hdir : s.dir_count + 2 ≤ MAX_INODES)
    (hfree : s.block_count + blocks_needed c1.length < MAX_BLOCKS)
    (_hfit : s.block_count + blocks_needed c1.length + blocks_needed c2.length ≤ MAX_BLOCKS)
    (hmax : (c1.length : Int) < max_len) :
    (create_file s n p1 u c1 t1 t2).status = Status.Ok
    ∧ (create_file (create_file s n p1 u c1 t1 t2).fs n p2 u c2 t3 t4).status = Status.Ok
    ∧ (read_file (create_file (create_file s n p1 u c1 t1 t2).fs n p2 u c2 t3 t4).fs n u
        max_len t5).status = Status.Ok
    ∧ (read_file (create_file (create_file s n p1 u c1 t1 t2).fs n p2 u c2 t3 t4).fs n u
        max_len t5).ret = (c1.length : Int)
    ∧ (read_file (create_file (create_file s n p1 u c1 t1 t2).fs n p2 u c2 t3 t4).fs n u
        max_len t5).buffer = c1 ++ [0] := by
  have h1 : ¬ (s.inode_count ≥ MAX_INODES ∨ s.block_count ≥ MAX_BLOCKS) := by
    intro hc; rcases hc with hc | hc <;> omega
  obtain ⟨hst1, -, -, hinodes1, hdir1, hbc1, hic1, hdc1⟩ :=
    create_file_pass s n p1 u c1 t1 t2 h1
  have h2 : ¬ ((create_file s n p1 u c1 t1 t2).fs.inode_count ≥ MAX_INODES
      ∨ (create_file s n p1 u c1 t1 t2).fs.block_count ≥ MAX_BLOCKS) := by
    rw [hbc1, hic1]
    intro hc; rcases hc with hc | hc <;> omega
  obtain ⟨hst2, -, -, hinodes2, hdir2, -, -, hdc2⟩ :=
    create_file_pass (create_file s n p1 u c1 t1 t2).fs n p2 u c2 t3 t4 h2
  have hl1 := create_file_lookup s n p1 u c1 t1 t2 h1 hname
    ((lookup_eq_none_iff_absent s n).2 hfresh)
  have hl2 : lookup (create_file (create_file s n p1 u c1 t1 t2).fs n p2 u c2 t3 t4).fs n
      = some s.dir_count := by
    rw [lookup_append (create_file s n p1 u c1 t1 t2).fs _ n hdc2
      (by intro d hd; rw [hdir2, upd_other _ _ _ _ (by omega)]), hl1]
    rfl
  have hino2 : (create_file (create_file s n p1 u c1 t1 t2).fs n p2 u c2 t3 t4).fs.inodes
      ((create_file (create_file s n p1 u c1 t1 t2).fs n p2 u c2 t3 t4).fs.directory
        s.dir_count).inode_id
      = new_inode (s.inodes s.inode_count) s.inode_count p1 u c1 t1
          (alloc_blocks (alloc_start s) c1) := by
    rw [hdir2, upd_other _ _ _ _ (by omega), hdir1, upd_same, hinodes2]
    show upd _ _ _ s.inode_count = _
    rw [upd_other _ _ _ _ (by omega), hinodes1, upd_same]
  have hmay : may_read (new_inode (s.inodes s.inode_count) s.inode_count p1 u c1 t1
      (alloc_blocks (alloc_start s) c1)) u = true := may_read_owner _
  rw [read_file_found _ _ _ _ _ _ hl2, hino2, if_pos hmay]
  refine ⟨hst1, hst2, rfl, rfl, ?_⟩
  show read_data _ _ _ ++ [0] = c1 ++ [0]
  rw [read_data_content _ _ _ (new_inode_has_indirect _ _ _ _ _ _ _),
    created_content_kept s n p1 u c1 t1 t2 n p2 u c2 t3 t4 h1 (by omega),
    List.take_of_length_le (by omega)]

/-- C10, witness: two files named `f` created in `init_fs`; the read yields the first
content. -/
theorem first_entry_wins_witness :
    ([102] : List Nat).length < MAX_NAME ∧ absent init_fs [102]
    ∧ (read_file (create_file (create_file init_fs [102] [] 7 [104, 105] 1 2).fs [102] [] 7
        [122] 3 4).fs [102] 7 10 5).ret = (([104, 105] : List Nat).length : Int)
    ∧ (read_file (create_file (create_file init_fs [102] [] 7 [104, 105] 1 2).fs [102] [] 7
        [122] 3 4).fs [102] 7 10 5).buffer = [104, 105] ++ [0] :=
  ⟨by decide, by decide,
    (first_entry_wins init_fs [102] [] [] [104, 105] [122] 7 1 2 3 4 5 10 (by decide)
      (by decide) (by decide) (by decide) (by decide) (by decide) (by decide)).2.2.2⟩

/-! ## C11: frame of `read_file` -/

theorem append_log_logs (fs : simplefs) (text : List Nat) (now : Int) :
    (append_log fs text now).logs
      = upd fs.logs (fs.log_count % MAX_LOGS)
          { operation := snprintf MAX_NAME text, timestamp := now,
            hash := compute_hash (snprintf MAX_NAME text) now } := rfl

/-- C11: for every state and all arguments, `read_file` never changes the blocks, the inode
table, the directory, `block_count`, `inode_count` or `dir_count`.  When it fails (not found
or permission denied) the whole state, log and `log_count` included, is unchanged; when it
succeeds, log slot `log_count % 100` is rewritten, every other slot is unchanged and
`log_count` grows by 1. -/
theorem read_file_changes_log_only (s : simplefs) (name : List Nat) (uid max_len now : Int) :
    (read_file s name uid max_len now).fs.blocks = s.blocks
    ∧ (read_file s name uid max_len now).fs.inodes = s.inodes
    ∧ (read_file s name uid max_len now).fs.directory = s.directory
    ∧ (read_file s name uid max_len now).fs.block_count = s.block_count
    ∧ (read_file s name uid max_len now).fs.inode_count = s.inode_count
    ∧ (read_file s name uid max_len now).fs.dir_count = s.dir_count
    ∧ ((read_file s name uid max_len now).status ≠ Status.Ok
        → ((read_file s name uid max_len now).status = Status.NotFound
            ∨ (read_file s name uid max_len now).status = Status.PermissionDenied)
          ∧ (read_file s name uid max_len now).fs = s)
    ∧ ((read_file s name uid max_len now).status = Status.Ok
        → (read_file s name uid max_len now).fs.log_count = s.log_count + 1
          ∧ (∀ k, k ≠ s.log_count % 100
              → (read_file s name uid max_len now).fs.logs k = s.logs k)
          ∧ ((read_file s name uid max_len now).fs.logs (s.log_count % 100)).timestamp = now
          ∧ ((read_file s name uid max_len now).fs.logs (s.log_count % 100)).operation
              = snprintf MAX_NAME
                  (ascii "Read file " ++ name ++ ascii " by UID " ++ fmt_int uid)
          ∧ ((read_file s name uid max_len now).fs.logs (s.log_count % 100)).hash
              = compute_hash
                  ((read_file s name uid max_len now).fs.logs (s.log_count % 100)).operation
                  now) := by
  obtain ⟨h1, h2, h3, h4, h5, h6⟩ := read_file_frame s name uid max_len now
  refine ⟨h1, h2, h3, h4, h5, h6, ?_, ?_⟩
  · cases hl : lookup s name with
    | none =>
      rw [read_file_absent _ _ _ _ _ hl]
      exact fun _ => ⟨Or.inl rfl, rfl⟩
    | some d =>
      rw [read_file_found _ _ _ _ _ _ hl]
      split
      · exact fun hx => absurd rfl hx
      · exact fun _ => ⟨Or.inr rfl, rfl⟩
  · cases hl : lookup s name with
    | none =>
      rw [read_file_absent _ _ _ _ _ hl]
      exact fun hx => Status.noConfusion hx
    | some d =>
      rw [read_file_found _ _ _ _ _ _ hl]
      split
      · intro _
        refine ⟨rfl, fun k hk => ?_, ?_, ?_, ?_⟩
        · show upd s.logs (s.log_count % MAX_LOGS) _ k = s.logs k
          exact upd_other _ _ _ _ hk
        · show (upd s.logs (s.log_count % MAX_LOGS) _ (s.log_count % MAX_LOGS)).timestamp = now
          rw [upd_same]
        · show (upd s.logs (s.log_count % MAX_LOGS) _ (s.log_count % MAX_LOGS)).operation = _
          rw [upd_same]
        · show (upd s.logs (s.log_count % MAX_LOGS) _ (s.log_count % MAX_LOGS)).hash
            = compute_hash
                (upd s.logs (s.log_count % MAX_LOGS) _ (s.log_count % MAX_LOGS)).operation now
          rw [upd_same]
      · exact fun hx => Status.noConfusion hx

/-- C11, witness: a denied read in `one_file` leaves the state as it was, a permitted one
adds one to `log_count`. -/
theorem read_file_changes_log_only_witness :
    (read_file one_file [103] 5 10 3).status ≠ Status.Ok
    ∧ (read_file one_file [103] 5 10 3).fs = one_file
    ∧ (read_file one_file [102] 1001 10 3).status = Status.Ok
    ∧ (read_file one_file [102] 1001 10 3).fs.log_count = one_file.log_count + 1 :=
  ⟨by decide,
    ((read_file_changes_log_only one_file [103] 5 10 3).2.2.2.2.2.2.1 (by decide)).2,
    by decide,
    ((read_file_changes_log_only one_file [102] 1001 10 3).2.2.2.2.2.2.2 (by decide)).1⟩

/-! ## The log -/

theorem for_loop_collect {α : Type} (f : Nat → α) (n : Nat) (init : List α) :
    for_loop n (fun i out => out ++ [f i]) init = init ++ (List.range n).map f := by
  induction n with
  | zero => simp
  | succ k ih =>
    rw [for_loop_succ, ih, List.range_succ, List.map_append, List.append_assoc]
    rfl

theorem verify_logs_eq (fs : simplefs) :
    verify_logs fs = (List.range (min fs.log_count MAX_LOGS)).map (verdict fs) := by
  unfold verify_logs
  rw [for_loop_collect, List.nil_append]

theorem print_logs_eq (fs : simplefs) :
    print_logs fs = (List.range (min fs.log_count MAX_LOGS)).map fs.logs := by
  unfold print_logs
  rw [for_loop_collect, List.nil_append]

theorem verify_logs_get (fs : simplefs) (i : Nat) (hi : i < min fs.log_count MAX_LOGS) :
    (verify_logs fs)[i]? = some (verdict fs i) := by
  rw [verify_logs_eq, List.getElem?_map, List.getElem?_range hi]
  rfl

theorem create_file_log_effect (s : simplefs) (name permissions : List Nat) (uid : Int)
    (data : List Nat) (now now_log : Int) :
    ((create_file s name permissions uid data now now_log).status = Status.Ok
      → (create_file s name permissions uid data now now_log).fs.logs
          = upd s.logs (s.log_count % MAX_LOGS)
              (made_entry (ascii "Created file " ++ name ++ ascii " by UID " ++ fmt_int uid)
                now_log)
        ∧ (create_file s name permissions uid data now now_log).fs.log_count
            = s.log_count + 1)
    ∧ ((create_file s name permissions uid data now now_log).status ≠ Status.Ok
      → (create_file s name permissions uid data now now_log).fs = s) := by
  by_cases h : s.inode_count ≥ MAX_INODES ∨ s.block_count ≥ MAX_BLOCKS
  · rw [create_file_full _ _ _ _ _ _ _ h]
    exact ⟨fun hx => Status.noConfusion hx, fun _ => rfl⟩
  · unfold create_file
    rw [if_neg h]
    exact ⟨fun _ => ⟨rfl, rfl⟩, fun hx => absurd rfl hx⟩

theorem read_file_log_effect (s : simplefs) (name : List Nat) (uid max_len now : Int) :
    ((read_file s name uid max_len now).status = Status.Ok
      → (read_file s name uid max_len now).fs.logs
          = upd s.logs (s.log_count % MAX_LOGS)
              (made_entry (ascii "Read file " ++ name ++ ascii " by UID " ++ fmt_int uid) now)
        ∧ (read_file s name uid max_len now).fs.log_count = s.log_count + 1)
    ∧ ((read_file s name uid max_len now).status ≠ Status.Ok
      → (read_file s name uid max_len now).fs = s) := by
  cases hl : lookup s name with
  | none =>
    rw [read_file_absent _ _ _ _ _ hl]
    exact ⟨fun hx => Status.noConfusion hx, fun _ => rfl⟩
  | some d =>
    rw [read_file_found _ _ _ _ _ _ hl]
    split
    · exact ⟨fun _ => ⟨rfl, rfl⟩, fun hx => absurd rfl hx⟩
    · exact ⟨fun hx => Status.noConfusion hx, fun _ => rfl⟩

theorem create_hard_link_log_effect (s : simplefs) (existing_name new_name : List Nat)
    (uid now : Int) :
    ((create_hard_link s existing_name new_name uid now).status = Status.Ok
      → (create_hard_link s existing_name new_name uid now).fs.logs
          = upd s.logs (s.log_count % MAX_LOGS)
              (made_entry
                (ascii "Created hard link " ++ new_name ++ ascii " to " ++ existing_name
                  ++ ascii " by UID " ++ fmt_int uid) now)
        ∧ (create_hard_link s existing_name new_name uid now).fs.log_count = s.log_count + 1)
    ∧ ((create_hard_link s existing_name new_name uid now).status ≠ Status.Ok
      → (create_hard_link s existing_name new_name uid now).fs = s) := by
  cases hl : lookup s existing_name with
  | none =>
    rw [create_hard_link_absent _ _ _ _ _ hl]
    exact ⟨fun hx => Status.noConfusion hx, fun _ => rfl⟩
  | some d =>
    rw [create_hard_link_found _ _ _ _ _ _ hl]
    split
    · exact ⟨fun _ => ⟨rfl, rfl⟩, fun hx => absurd rfl hx⟩
    · exact ⟨fun hx => Status.noConfusion hx, fun _ => rfl⟩

/-- What a call does to the log: a successful call writes its entry to slot
`log_count % MAX_LOGS` and adds one to `log_count`; a failed call changes nothing at all. -/
theorem call_log_effect (s : simplefs) (c : call) :
    (call_status s c = Status.Ok
      → (call_fs s c).logs
          = upd s.logs (s.log_count % MAX_LOGS) (made_entry (call_text c) (call_time c))
        ∧ (call_fs s c).log_count = s.log_count + 1)
    ∧ (call_status s c ≠ Status.Ok → call_fs s c = s) := by
  cases c with
  | create_file name permissions uid data now now_log =>
    exact create_file_log_effect s name permissions uid data now now_log
  | read_file name uid max_len now => exact read_file_log_effect s name uid max_len now
  | create_hard_link existing_name new_name uid now =>
    exact create_hard_link_log_effect s existing_name new_name uid now
  | create_soft_link existing_name new_name uid now =>
    exact ⟨fun _ => ⟨rfl, rfl⟩, fun hx => absurd rfl hx⟩

theorem to_u32_lt (z : Int) : to_u32 z < 4294967296 := by
  unfold to_u32
  omega

theorem snprintf_length (text : List Nat) : (snprintf MAX_NAME text).length < MAX_NAME := by
  unfold snprintf
  rw [List.length_take]
  have : MAX_NAME = 256 := rfl
  omega

theorem log_inv_init : log_inv init_fs := by
  intro k
  refine ⟨?_, Nat.zero_lt_succ _⟩
  show (0 : Nat) = compute_hash [] 0
  decide

theorem log_inv_call (s : simplefs) (c : call) (h : log_inv s) : log_inv (call_fs s c) := by
  by_cases hs : call_status s c = Status.Ok
  · intro k
    rw [((call_log_effect s c).1 hs).1]
    by_cases e : k = s.log_count % MAX_LOGS
    · rw [e, upd_same]
      exact ⟨rfl, snprintf_length _⟩
    · rw [upd_other _ _ _ _ e]
      exact h k
  · rw [(call_log_effect s c).2 hs]
    exact h

theorem reachable_log_inv (s : simplefs) (h : Reachable s) : log_inv s := by
  induction h with
  | init => exact log_inv_init
  | create_file s name permissions uid data now now_log _ ih =>
    exact log_inv_call s (call.create_file name permissions uid data now now_log) ih
  | read_file s name uid max_len now _ ih =>
    exact log_inv_call s (call.read_file name uid max_len now) ih
  | create_hard_link s e n uid now _ ih =>
    exact log_inv_call s (call.create_hard_link e n uid now) ih
  | create_soft_link s e n uid now _ ih =>
    exact log_inv_call s (call.create_soft_link e n uid now) ih

theorem within_log_inv (s : simplefs) (h : Within s) : log_inv s :=
  reachable_log_inv s (within_reachable s h)

/-! ## C12: tampering with a stored checksum -/

theorem compute_hash_small (op : List Nat) (ts : Int) (h : op.length < MAX_NAME) :
    compute_hash op ts = to_u32 ts ^^^ op.length := by
  unfold compute_hash
  have h1 : to_u32 ts < 2 ^ 32 := to_u32_lt ts
  have h2 : op.length < 2 ^ 32 := by
    have : MAX_NAME = 256 := rfl
    omega
  have h3 := Nat.xor_lt_two_pow h1 h2
  exact Nat.mod_eq_of_lt h3

theorem to_u32_eq_iff (a b : Int) : to_u32 a = to_u32 b ↔ a % 4294967296 = b % 4294967296 := by
  unfold to_u32
  omega

/-- The verdict on a slot whose text was replaced: tampered exactly when the length of the
text changed. -/
theorem verdict_tamper_operation (s : simplefs) (i : Nat) (text : List Nat)
    (hinv : log_inv s) (ht : text.length < MAX_NAME) :
    verdict (tamper_operation s i text) i
      = if text.length = (s.logs i).operation.length then log_report.ok i
        else log_report.tampered i text := by
  have e : (tamper_operation s i text).logs i = { s.logs i with operation := text } :=
    upd_same _ _ _
  unfold verdict
  rw [e]
  show (if compute_hash text (s.logs i).timestamp = (s.logs i).hash then _ else _) = _
  rw [(hinv i).1, compute_hash_small _ _ ht, compute_hash_small _ _ (hinv i).2]
  by_cases hl : text.length = (s.logs i).operation.length
  · rw [if_pos hl, if_pos (by rw [hl])]
  · rw [if_neg hl, if_neg (fun hx => hl (Nat.xor_right_inj.1 hx))]

/-- The verdict on a slot whose time was replaced: tampered exactly when the time changed
modulo `2^32`. -/
theorem verdict_tamper_timestamp (s : simplefs) (i : Nat) (ts : Int) (hinv : log_inv s) :
    verdict (tamper_timestamp s i ts) i
      = if ts % 4294967296 = (s.logs i).timestamp % 4294967296 then log_report.ok i
        else log_report.tampered i (s.logs i).operation := by
  have e : (tamper_timestamp s i ts).logs i = { s.logs i with timestamp := ts } :=
    upd_same _ _ _
  unfold verdict
  rw [e]
  show (if compute_hash (s.logs i).operation ts = (s.logs i).hash then _ else _) = _
  rw [(hinv i).1, compute_hash_small _ _ (hinv i).2, compute_hash_small _ _ (hinv i).2]
  by_cases hl : ts % 4294967296 = (s.logs i).timestamp % 4294967296
  · rw [if_pos hl, if_pos (by rw [(to_u32_eq_iff _ _).2 hl])]
  · rw [if_neg hl, if_neg (fun hx => hl ((to_u32_eq_iff _ _).1 (Nat.xor_left_inj.1 hx)))]

/-- C13, counterexample: in `one_file`, reachable within capacity, slot 0 holds the text
`Created file f by UID 1001` and the time 2.  Replacing the text by the different text
`Deleted file f by UID 1001`, of the same length, or the time by the different value
`2 + 2^32`, leaves the slot reported OK. -/
theorem weak_hash_misses_tampering :
    Reachable one_file
    ∧ 0 < min one_file.log_count 100
    ∧ ascii "Deleted file f by UID 1001" ≠ (one_file.logs 0).operation
    ∧ (verify_logs (tamper_operation one_file 0 (ascii "Deleted file f by UID 1001")))[0]?
        = some (log_report.ok 0)
    ∧ (4294967298 : Int) ≠ (one_file.logs 0).timestamp
    ∧ (verify_logs (tamper_timestamp one_file 0 4294967298))[0]? = some (log_report.ok 0)
    ∧ Within one_file := by
  refine ⟨one_file_reachable, ?_, ?_, ?_, ?_, ?_, one_file_within⟩ <;> decide

/-- C13 (amended): for every state reachable within capacity and every populated log slot
`i`, with the stored checksum left untouched: replacing the text of slot `i` by a text (that
fits the text field) makes `verify_logs` report slot `i` as TAMPERED if and only if the
length of the text changed, and replacing its time makes it report TAMPERED if and only if
the time changed modulo `2^32`; otherwise the slot is still reported OK. -/
theorem verify_detects_length_and_time (s : simplefs) (i : Nat) (hr : Within s)
    (hi : i < min s.log_count 100) :
    (∀ text : List Nat, text.length < MAX_NAME →
      ((verify_logs (tamper_operation s i text))[i]? = some (log_report.tampered i text)
          ↔ text.length ≠ (s.logs i).operation.length)
      ∧ ((verify_logs (tamper_operation s i text))[i]? = some (log_report.ok i)
          ↔ text.length = (s.logs i).operation.length))
    ∧ (∀ ts : Int,
      ((verify_logs (tamper_timestamp s i ts))[i]?
            = some (log_report.tampered i (s.logs i).operation)
          ↔ ts % 4294967296 ≠ (s.logs i).timestamp % 4294967296)
      ∧ ((verify_logs (tamper_timestamp s i ts))[i]? = some (log_report.ok i)
          ↔ ts % 4294967296 = (s.logs i).timestamp % 4294967296)) := by
  have hinv := within_log_inv s hr
  constructor
  · intro text ht
    rw [verify_logs_get (tamper_operation s i text) i hi,
      verdict_tamper_operation s i text hinv ht]
    by_cases hl : text.length = (s.logs i).operation.length
    · rw [if_pos hl]
      exact ⟨⟨fun hx => log_report.noConfusion (Option.some.inj hx), fun hx => absurd hl hx⟩,
        ⟨fun _ => hl, fun _ => rfl⟩⟩
    · rw [if_neg hl]
      exact ⟨⟨fun _ => hl, fun _ => rfl⟩,
        ⟨fun hx => log_report.noConfusion (Option.some.inj hx), fun hx => absurd hx hl⟩⟩
  · intro ts
    rw [verify_logs_get (tamper_timestamp s i ts) i hi, verdict_tamper_timestamp s i ts hinv]
    by_cases hl : ts % 4294967296 = (s.logs i).timestamp % 4294967296
    · rw [if_pos hl]
      exact ⟨⟨fun hx => log_report.noConfusion (Option.some.inj hx), fun hx => absurd hl hx⟩,
        ⟨fun _ => hl, fun _ => rfl⟩⟩
    · rw [if_neg hl]
      exact ⟨⟨fun _ => hl, fun _ => rfl⟩,
        ⟨fun hx => log_report.noConfusion (Option.some.inj hx), fun hx => absurd hx hl⟩⟩

/-- C13, witness: in `one_file`, a shorter text in slot 0 is reported as TAMPERED. -/
theorem verify_detects_length_and_time_witness :
    Within one_file
    ∧ 0 < min one_file.log_count 100
    ∧ ([120] : List Nat).length < MAX_NAME
    ∧ ([120] : List Nat).length ≠ (one_file.logs 0).operation.length
    ∧ (verify_logs (tamper_operation one_file 0 [120]))[0]?
        = some (log_report.tampered 0 [120]) :=
  ⟨one_file_within, by decide, by decide, by decide,
    ((verify_detects_length_and_time one_file 0 one_file_within (by decide)).1 [120]
      (by decide)).1.2 (by decide)⟩

/-! ## C14: the log is a ring buffer -/

theorem run_log_count (s : simplefs) (cs : List call) :
    (run s cs).log_count = s.log_count + successes s cs := by
  induction cs generalizing s with
  | nil => rfl
  | cons c cs ih =>
    show (run (call_fs s c) cs).log_count = s.log_count + successes s (c :: cs)
    rw [ih (call_fs s c)]
    show _ = s.log_count + ((if call_status s c = Status.Ok then 1 else 0)
      + successes (call_fs s c) cs)
    by_cases hs : call_status s c = Status.Ok
    · rw [((call_log_effect s c).1 hs).2, if_pos hs]
      omega
    · rw [(call_log_effect s c).2 hs, if_neg hs]
      omega

/-- The log within capacity: every successful call that stays inside the arrays writes its
entry (text, time, hash of both) into slot `log_count % 100`, leaves every other slot
unchanged and adds exactly 1 to `log_count`; a call that succeeds when `log_count = m + 100`
overwrites slot `m % 100`.  After a sequence of such calls from `init_fs`, `log_count` is the
number of calls that succeeded, however large.  `verify_logs` and `print_logs` inspect
exactly `min(log_count, 100)` slots, line `i` being about slot `i < 100`. -/
theorem ring_buffer_within_capacity :
    (∀ (s : simplefs) (c : call), call_fits s c → call_status s c = Status.Ok →
      (call_fs s c).log_count = s.log_count + 1
      ∧ s.log_count % 100 < 100
      ∧ (call_fs s c).logs (s.log_count % 100) = made_entry (call_text c) (call_time c)
      ∧ ((call_fs s c).logs (s.log_count % 100)).hash
          = compute_hash ((call_fs s c).logs (s.log_count % 100)).operation
              ((call_fs s c).logs (s.log_count % 100)).timestamp
      ∧ (∀ k, k ≠ s.log_count % 100 → (call_fs s c).logs k = s.logs k)
      ∧ (∀ m, s.log_count = m + 100
          → (call_fs s c).logs (m % 100) = made_entry (call_text c) (call_time c)))
    ∧ (∀ cs : List call, run_fits init_fs cs →
        (run init_fs cs).log_count = successes init_fs cs)
    ∧ (∀ s : simplefs,
      (verify_logs s).length = min s.log_count 100
      ∧ (print_logs s).length = min s.log_count 100
      ∧ ∀ i, i < min s.log_count 100 →
          i < 100 ∧ (verify_logs s)[i]? = some (verdict s i)
            ∧ (print_logs s)[i]? = some (s.logs i)) := by
  have hM : MAX_LOGS = 100 := rfl
  refine ⟨?_, ?_, ?_⟩
  · intro s c _ hs
    obtain ⟨hlogs, hcount⟩ := (call_log_effect s c).1 hs
    rw [hM] at hlogs
    refine ⟨hcount, Nat.mod_lt _ (by decide), ?_, ?_, ?_, ?_⟩
    · rw [hlogs, upd_same]
    · rw [hlogs, upd_same]
      rfl
    · intro k hk
      rw [hlogs, upd_other _ _ _ _ hk]
    · intro m hm
      have e : m % 100 = s.log_count % 100 := by omega
      rw [e, hlogs, upd_same]
  · intro cs _
    rw [run_log_count]
    show 0 + _ = _
    omega
  · intro s
    refine ⟨?_, ?_, ?_⟩
    · rw [verify_logs_eq, List.length_map, List.length_range, hM]
    · rw [print_logs_eq, List.length_map, List.length_range, hM]
    · intro i hi
      refine ⟨by omega, verify_logs_get s i hi, ?_⟩
      rw [print_logs_eq, List.getElem?_map, List.getElem?_range (by rw [hM]; exact hi)]
      rfl

/-- C14, the code at the failing input: after 128 soft links made from `init_fs`, a state
reachable within capacity, the directory is full (`dir_count = 128`) and `log_count = 128`, so
the next log slot is 28.  One more `create_soft_link` succeeds, adds 1 to `log_count`, and
writes the three fields of its directory entry at index 128, past the last slot of the
directory. -/
theorem log_write_on_full_directory :
    Within (soft_links 128)
    ∧ (soft_links 128).dir_count = MAX_INODES
    ∧ (soft_links 128).log_count % 100 = 28
    ∧ call_status (soft_links 128) (call.create_soft_link [116] [108] 0 0) = Status.Ok
    ∧ (call_fs (soft_links 128) (call.create_soft_link [116] [108] 0 0)).log_count
        = (soft_links 128).log_count + 1
    ∧ ((call_fs (soft_links 128) (call.create_soft_link [116] [108] 0 0)).directory
        MAX_INODES).name = [108]
    ∧ ((call_fs (soft_links 128) (call.create_soft_link [116] [108] 0 0)).directory
        MAX_INODES).is_soft_link = 1
    ∧ ((call_fs (soft_links 128) (call.create_soft_link [116] [108] 0 0)).directory
        MAX_INODES).link_path = [116] := by
  have hd : (call_fs (soft_links 128) (call.create_soft_link [116] [108] 0 0)).directory
      MAX_INODES
      = { (soft_links 128).directory 128 with
          name := strncpy MAX_NAME [108], link_path := strncpy MAX_NAME [116],
          is_soft_link := 1 } := by
    show (create_soft_link (soft_links 128) [116] [108] 0 0).fs.directory 128 = _
    rw [create_soft_link_directory, soft_links_dir_count, upd_same]
  refine ⟨soft_links_within 128 (Nat.le_refl _), soft_links_dir_count 128, ?_, rfl, rfl,
    ?_, ?_, ?_⟩
  · rw [soft_links_log_count]
  · rw [hd]
    rfl
  · rw [hd]
  · rw [hd]
    rfl

/-! ## C15: effect of `create_soft_link` -/

set_option maxRecDepth 100000 in
/-- C15, counterexample: in `one_file`, whose directory has room, `create_soft_link` with a
new name of 257 bytes succeeds but the appended entry bears a name of 256 bytes, not the new
name; likewise a target of 257 bytes is not the link path of the entry. -/
theorem soft_link_name_cut :
    one_file.dir_count < MAX_INODES
    ∧ (create_soft_link one_file [120] long_name 5 6).status = Status.Ok
    ∧ ((create_soft_link one_file [120] long_name 5 6).fs.directory one_file.dir_count).name
        ≠ long_name
    ∧ ((create_soft_link one_file [120] long_name 5 6).fs.directory
        one_file.dir_count).name.length = 256
    ∧ ((create_soft_link one_file long_name [108] 5 6).fs.directory
        one_file.dir_count).link_path ≠ long_name := by
  refine ⟨?_, ?_, ?_, ?_, ?_⟩ <;> decide

/-- C15 (amended): `create_soft_link` performs no permission check and no existence check:
for every state with directory room, all names and every uid it returns success, appends
exactly one directory entry, with the soft-link flag set, whose name and link path are the
first 256 bytes of `new_name` and `existing_name` (the names themselves when shorter than
256 bytes), appends one log entry, and leaves the blocks, the inodes, `block_count`,
`inode_count` and every other directory slot unchanged. -/
theorem soft_link_effect (s : simplefs) (existing_name new_name : List Nat) (uid now : Int)
    (_hroom : s.dir_count < MAX_INODES) :
    (create_soft_link s existing_name new_name uid now).status = Status.Ok
    ∧ (create_soft_link s existing_name new_name uid now).ret = 0
    ∧ (create_soft_link s existing_name new_name uid now).fs.dir_count = s.dir_count + 1
    ∧ ((create_soft_link s existing_name new_name uid now).fs.directory s.dir_count).name
        = new_name.take 256
    ∧ ((create_soft_link s existing_name new_name uid now).fs.directory s.dir_count).link_path
        = existing_name.take 256
    ∧ ((create_soft_link s existing_name new_name uid now).fs.directory
        s.dir_count).is_soft_link = 1
    ∧ (new_name.length < 256
        → ((create_soft_link s existing_name new_name uid now).fs.directory s.dir_count).name
            = new_name)
    ∧ (existing_name.length < 256
        → ((create_soft_link s existing_name new_name uid now).fs.directory
            s.dir_count).link_path = existing_name)
    ∧ (∀ d, d ≠ s.dir_count
        → (create_soft_link s existing_name new_name uid now).fs.directory d = s.directory d)
    ∧ (create_soft_link s existing_name new_name uid now).fs.log_count = s.log_count + 1
    ∧ (create_soft_link s existing_name new_name uid now).fs.logs (s.log_count % 100)
        = made_entry
            (ascii "Created soft link " ++ new_name ++ ascii " to " ++ existing_name
              ++ ascii " by UID " ++ fmt_int uid) now
    ∧ (∀ k, k ≠ s.log_count % 100
        → (create_soft_link s existing_name new_name uid now).fs.logs k = s.logs k)
    ∧ (create_soft_link s existing_name new_name uid now).fs.blocks = s.blocks
    ∧ (create_soft_link s existing_name new_name uid now).fs.inodes = s.inodes
    ∧ (create_soft_link s existing_name new_name uid now).fs.block_count = s.block_count
    ∧ (create_soft_link s existing_name new_name uid now).fs.inode_count = s.inode_count := by
  have hdir : (create_soft_link s existing_name new_name uid now).fs.directory
      = upd s.directory s.dir_count
          { s.directory s.dir_count with
            name := strncpy MAX_NAME new_name
            link_path := strncpy MAX_NAME existing_name
            is_soft_link := 1 } := rfl
  have hlogs : (create_soft_link s existing_name new_name uid now).fs.logs
      = upd s.logs (s.log_count % 100)
          (made_entry
            (ascii "Created soft link " ++ new_name ++ ascii " to " ++ existing_name
              ++ ascii " by UID " ++ fmt_int uid) now) := rfl
  refine ⟨rfl, rfl, rfl, ?_, ?_, ?_, ?_, ?_, ?_, rfl, ?_, ?_, rfl, rfl, rfl, rfl⟩
  · rw [hdir, upd_same]
    rfl
  · rw [hdir, upd_same]
    rfl
  · rw [hdir, upd_same]
  · intro h
    rw [hdir, upd_same]
    exact strncpy_short _ _ h
  · intro h
    rw [hdir, upd_same]
    exact strncpy_short _ _ h
  · intro d hd
    rw [hdir, upd_other _ _ _ _ hd]
  · rw [hlogs, upd_same]
  · intro k hk
    rw [hlogs, upd_other _ _ _ _ hk]

/-- C15, witness: in `one_file` uid 5, who may not read `f`, links the absent name `t`. -/
theorem soft_link_effect_witness :
    one_file.dir_count < MAX_INODES
    ∧ absent one_file [116]
    ∧ (create_soft_link one_file [116] [108] 5 6).status = Status.Ok
    ∧ ((create_soft_link one_file [116] [108] 5 6).fs.directory one_file.dir_count).name
        = [108] :=
  ⟨by decide, by decide,
    (soft_link_effect one_file [116] [108] 5 6 (by decide)).1,
    (soft_link_effect one_file [116] [108] 5 6 (by decide)).2.2.2.2.2.2.1 (by decide)⟩

/-! ## C16: block layout written by `create_file` -/

theorem create_file_ok_check (s : simplefs) (name permissions : List Nat) (uid : Int)
    (data : List Nat) (now now_log : Int)
    (hok : (create_file s name permissions uid data now now_log).status = Status.Ok) :
    ¬ (s.inode_count ≥ MAX_INODES ∨ s.block_count ≥ MAX_BLOCKS) := by
  intro h
  rw [create_file_full _ _ _ _ _ _ _ h] at hok
  exact Status.noConfusion hok

/-- C17, the code at the failing input: from `init_fs`, `create_soft_link("x", "s", 0)`, then
`create_hard_link("s", "h", 0)`, which matches the soft-link entry and links the still free
inode slot 0 (owner 0), then `create_file("f", "rw-r--r--", 1001, "hi")`, which takes slot 0
and sets its count to 1.  All three calls succeed within capacity; in the reachable state
they leave, inode 0 is allocated with `ref_count = 1` while two entries that are not soft
links, `h` and `f`, have inode id 0. -/
theorem ref_count_below_entries :
    (create_soft_link init_fs [120] [115] 0 1).status = Status.Ok
    ∧ (create_hard_link soft_only [115] [104] 0 2).status = Status.Ok
    ∧ (create_file linked_soft [102] (ascii "rw-r--r--") 1001 [104, 105] 3 4).status
        = Status.Ok
    ∧ Reachable dangling_link
    ∧ dangling_link.inode_count = 1
    ∧ dangling_link.dir_count = 3
    ∧ dangling_link.block_count = 1
    ∧ (dangling_link.inodes 0).ref_count = 1
    ∧ ref_entries dangling_link 0 = 2
    ∧ (dangling_link.directory 1).name = [104]
    ∧ (dangling_link.directory 1).is_soft_link = 0
    ∧ (dangling_link.directory 1).inode_id = 0
    ∧ (dangling_link.directory 2).name = [102]
    ∧ (dangling_link.directory 2).is_soft_link = 0
    ∧ (dangling_link.directory 2).inode_id = 0 := by
  refine ⟨by decide, by decide, by decide, ?_, by decide, by decide, by decide, by decide,
    by decide, by decide, by decide, by decide, by decide, by decide, by decide⟩
  exact Reachable.create_file _ _ _ _ _ _ _
    (Reachable.create_hard_link _ _ _ _ _ (Reachable.create_soft_link _ _ _ _ _ Reachable.init))

/-! ## C20: isolation of existing names -/

/-- C20, the code at the failing input: in the reachable state `soft_only` the name `s` is
present (entry 0) and `read_file("s", 1001, ..)` is denied (-1); after the successful
`create_file("f", "rw-r--r--", 1001, "hi")`, within capacity, the same read returns 2 and
the content `hi`: the soft-link entry designates inode slot 0, which the new file takes. -/
theorem read_of_present_name_changes :
    Reachable soft_only
    ∧ resolves soft_only [115] 0
    ∧ (read_file soft_only [115] 1001 10 5).status = Status.PermissionDenied
    ∧ (read_file soft_only [115] 1001 10 5).ret = -1
    ∧ (read_file soft_only [115] 1001 10 5).buffer = []
    ∧ (create_file soft_only [102] (ascii "rw-r--r--") 1001 [104, 105] 3 4).status = Status.Ok
    ∧ (create_file soft_only [102] (ascii "rw-r--r--") 1001 [104, 105] 3 4).fs.block_count
        ≤ MAX_BLOCKS
    ∧ (create_file soft_only [102] (ascii "rw-r--r--") 1001 [104, 105] 3 4).fs.inode_count
        ≤ MAX_INODES
    ∧ (create_file soft_only [102] (ascii "rw-r--r--") 1001 [104, 105] 3 4).fs.dir_count
        ≤ MAX_INODES
    ∧ (read_file (create_file soft_only [102] (ascii "rw-r--r--") 1001 [104, 105] 3 4).fs
        [115] 1001 10 5).status = Status.Ok
    ∧ (read_file (create_file soft_only [102] (ascii "rw-r--r--") 1001 [104, 105] 3 4).fs
        [115] 1001 10 5).ret = 2
    ∧ (read_file (create_file soft_only [102] (ascii "rw-r--r--") 1001 [104, 105] 3 4).fs
        [115] 1001 10 5).buffer = [104, 105, 0] := by
  refine ⟨Reachable.create_soft_link _ _ _ _ _ Reachable.init, by decide, by decide, by decide,
    by decide, by decide, by decide, by decide, by decide, by decide, by decide, by decide⟩

/-! ## C18: effect of a successful `create_hard_link` -/

set_option maxRecDepth 100000 in
/-- C18, counterexample: in `one_file`, whose directory has room, the owner links `f` under a
name `B` of 257 bytes; the call succeeds, but the appended entry bears a name of 256 bytes and
afterwards no directory entry is named `B`. -/
theorem hard_link_name_cut :
    one_file.dir_count < MAX_INODES
    ∧ resolves one_file [102] 0
    ∧ (create_hard_link one_file [102] long_name 1001 3).status = Status.Ok
    ∧ ((create_hard_link one_file [102] long_name 1001 3).fs.directory one_file.dir_count).name
        ≠ long_name
    ∧ absent (create_hard_link one_file [102] long_name 1001 3).fs long_name := by
  refine ⟨?_, ?_, ?_, ?_, ?_⟩ <;> decide

/-- C18 (amended): for every state with directory room in which `create_hard_link(A, B, uid)`
succeeds on the inode that `A` resolves to: the `ref_count` of that inode grows by exactly 1
(from 1 to 2 for a freshly created file) and its other fields are unchanged, every other
inode is unchanged; exactly one directory entry is appended, not a soft link, with the id of
the linked inode (in a state reachable within capacity, the inode id `A` resolves to) and, as
name, the first 256 bytes of `B` (`B` itself when shorter than 256 bytes); one log entry is
appended; the blocks, `block_count`, `inode_count` and every other directory slot are
unchanged. -/
theorem hard_link_effect (s : simplefs) (A B : List Nat) (uid now : Int) (i : Nat)
    (_hroom : s.dir_count < MAX_INODES) (hres : resolves s A i)
    (hok : (create_hard_link s A B uid now).status = Status.Ok) :
    (create_hard_link s A B uid now).ret = 0
    ∧ (create_hard_link s A B uid now).fs.inodes (s.directory i).inode_id
        = { s.inodes (s.directory i).inode_id with
            ref_count := (s.inodes (s.directory i).inode_id).ref_count + 1 }
    ∧ ((create_hard_link s A B uid now).fs.inodes (s.directory i).inode_id).ref_count
        = (s.inodes (s.directory i).inode_id).ref_count + 1
    ∧ ((s.inodes (s.directory i).inode_id).ref_count = 1
        → ((create_hard_link s A B uid now).fs.inodes (s.directory i).inode_id).ref_count = 2)
    ∧ (∀ k, k ≠ (s.directory i).inode_id
        → (create_hard_link s A B uid now).fs.inodes k = s.inodes k)
    ∧ (create_hard_link s A B uid now).fs.dir_count = s.dir_count + 1
    ∧ ((create_hard_link s A B uid now).fs.directory s.dir_count).name = B.take 256
    ∧ (B.length < 256
        → ((create_hard_link s A B uid now).fs.directory s.dir_count).name = B)
    ∧ ((create_hard_link s A B uid now).fs.directory s.dir_count).inode_id
        = (s.inodes (s.directory i).inode_id).id
    ∧ (Within s
        → ((create_hard_link s A B uid now).fs.directory s.dir_count).inode_id
            = (s.directory i).inode_id)
    ∧ ((create_hard_link s A B uid now).fs.directory s.dir_count).is_soft_link = 0
    ∧ (∀ d, d ≠ s.dir_count
        → (create_hard_link s A B uid now).fs.directory d = s.directory d)
    ∧ (create_hard_link s A B uid now).fs.log_count = s.log_count + 1
    ∧ (create_hard_link s A B uid now).fs.logs (s.log_count % 100)
        = made_entry
            (ascii "Created hard link " ++ B ++ ascii " to " ++ A ++ ascii " by UID "
              ++ fmt_int uid) now
    ∧ (∀ k, k ≠ s.log_count % 100
        → (create_hard_link s A B uid now).fs.logs k = s.logs k)
    ∧ (create_hard_link s A B uid now).fs.blocks = s.blocks
    ∧ (create_hard_link s A B uid now).fs.block_count = s.block_count
    ∧ (create_hard_link s A B uid now).fs.inode_count = s.inode_count := by
  have hl := (lookup_eq_some_iff_resolves s A i).2 hres
  obtain ⟨j, hlj, hm⟩ := create_hard_link_ok_inv s A B uid now hok
  have hji : j = i := by
    rw [hl] at hlj
    exact (Option.some.inj hlj).symm
  rw [hji] at hm
  obtain ⟨-, hret, hblk, hino, hdir, hbc, hic, hdc⟩ :=
    create_hard_link_pass s A B uid now i hl hm
  obtain ⟨hlogs, hlc⟩ := (create_hard_link_log_effect s A B uid now).1 hok
  have hM : MAX_LOGS = 100 := rfl
  rw [hM] at hlogs
  have hname : ((create_hard_link s A B uid now).fs.directory s.dir_count).name = B.take 256 := by
    rw [hdir, upd_same]
    rfl
  have hid : ((create_hard_link s A B uid now).fs.directory s.dir_count).inode_id
      = (s.inodes (s.directory i).inode_id).id := by
    rw [hdir, upd_same]
  refine ⟨hret, ?_, ?_, ?_, ?_, hdc, hname, ?_, hid, ?_, ?_, ?_, hlc, ?_, ?_, hblk, hbc, hic⟩
  · rw [hino, upd_same]
  · rw [hino, upd_same]
  · intro h1
    rw [hino, upd_same]
    show (s.inodes (s.directory i).inode_id).ref_count + 1 = 2
    rw [h1]
  · intro k hk
    rw [hino, upd_other _ _ _ _ hk]
  · intro hB
    rw [hname]
    exact List.take_of_length_le (Nat.le_of_lt hB)
  · intro hr
    rw [hid]
    exact inv_id_of_entry s (within_inv s hr) i
  · rw [hdir, upd_same]
  · intro d hd
    rw [hdir, upd_other _ _ _ _ hd]
  · rw [hlogs, upd_same]
  · intro k hk
    rw [hlogs, upd_other _ _ _ _ hk]

/-- C18, witness: in `one_file` the owner links the fresh file `f` under the name `g`; its
count goes from 1 to 2. -/
theorem hard_link_effect_witness :
    one_file.dir_count < MAX_INODES
    ∧ resolves one_file [102] 0
    ∧ (create_hard_link one_file [102] [103] 1001 3).status = Status.Ok
    ∧ (one_file.inodes (one_file.directory 0).inode_id).ref_count = 1
    ∧ ((create_hard_link one_file [102] [103] 1001 3).fs.inodes
        (one_file.directory 0).inode_id).ref_count = 2
    ∧ ((create_hard_link one_file [102] [103] 1001 3).fs.directory one_file.dir_count).name
        = [103]
    ∧ ((create_hard_link one_file [102] [103] 1001 3).fs.directory one_file.dir_count).inode_id
        = (one_file.directory 0).inode_id :=
  ⟨by decide, by decide, by decide, by decide,
    (hard_link_effect one_file [102] [103] 1001 3 0 (by decide) (by decide)
      (by decide)).2.2.2.1 (by decide),
    (hard_link_effect one_file [102] [103] 1001 3 0 (by decide) (by decide)
      (by decide)).2.2.2.2.2.2.2.1 (by decide),
    (hard_link_effect one_file [102] [103] 1001 3 0 (by decide) (by decide)
      (by decide)).2.2.2.2.2.2.2.2.2.1 one_file_within⟩

/-! ## C19: metadata written by `create_file` -/

set_option maxRecDepth 100000 in
/-- C19, counterexample.  (1) `create_file` with a name of 257 bytes and uid 7 succeeds in
`init_fs`, but the appended entry bears a name of 256 bytes and afterwards no directory entry
is named by the name given.  (2) `create_file` with the permission string `rwxrwxrwxZZZ`
succeeds in `init_fs`, and the permission field of the new inode holds the 10 bytes
`rwxrwxrwxZ`, not the first 9 characters of the string. -/
theorem create_file_name_cut :
    ((create_file init_fs long_name (ascii "rw-r--r--") 7 [104, 105] 1 2).status = Status.Ok
      ∧ ((create_file init_fs long_name (ascii "rw-r--r--") 7 [104, 105] 1 2).fs.directory
          init_fs.dir_count).name ≠ long_name
      ∧ absent (create_file init_fs long_name (ascii "rw-r--r--") 7 [104, 105] 1 2).fs
          long_name)
    ∧ ((create_file init_fs [102] (ascii "rwxrwxrwxZZZ") 7 [104, 105] 1 2).status = Status.Ok
      ∧ ((create_file init_fs [102] (ascii "rwxrwxrwxZZZ") 7 [104, 105] 1 2).fs.inodes
          init_fs.inode_count).permissions = ascii "rwxrwxrwxZ"
      ∧ ((create_file init_fs [102] (ascii "rwxrwxrwxZZZ") 7 [104, 105] 1 2).fs.inodes
          init_fs.inode_count).permissions ≠ (ascii "rwxrwxrwxZZZ").take 9) := by
  refine ⟨⟨?_, ?_, ?_⟩, ⟨?_, ?_, ?_⟩⟩ <;> decide

/-- C19 (amended): for every state whose directory has a free slot and in which
`create_file(name, perms, uid, content)` succeeds with `uid >= 0` and a content that fits in
the free blocks: the returned inode id equals `inode_count` before the call, which is the
table slot and the id field of the new inode; `inode_count` and `dir_count` each grow by
exactly 1; the new inode has size = length of the content, owner = uid, group id
= `uid mod 10`, `ref_count = 1` and, in its permission field, the first 10 bytes of `perms`
(`perms` itself, terminated, when `perms` has at most 9 characters); and the appended
directory entry has the returned id, the soft-link flag clear and, as name, the first 256
bytes of `name` (`name` itself when shorter than 256 bytes, and then `name` resolves to an
entry with the returned id as soon as no earlier entry bears it). -/
theorem create_file_metadata (s : simplefs) (name permissions : List Nat) (uid : Int)
    (data : List Nat) (now now_log : Int)
    (hok : (create_file s name permissions uid data now now_log).status = Status.Ok)
    (huid : 0 ≤ uid) (_hroom : s.dir_count < MAX_INODES)
    (_hfit : s.block_count + blocks_needed data.length ≤ MAX_BLOCKS) :
    (create_file s name permissions uid data now now_log).ret = (s.inode_count : Int)
    ∧ (create_file s name permissions uid data now now_log).fs.inode_count
        = s.inode_count + 1
    ∧ (create_file s name permissions uid data now now_log).fs.dir_count = s.dir_count + 1
    ∧ ((create_file s name permissions uid data now now_log).fs.inodes s.inode_count).id
        = s.inode_count
    ∧ ((create_file s name permissions uid data now now_log).fs.inodes s.inode_count).size
        = data.length
    ∧ ((create_file s name permissions uid data now now_log).fs.inodes s.inode_count).owner_uid
        = uid
    ∧ ((create_file s name permissions uid data now now_log).fs.inodes s.inode_count).group_id
        = uid % 10
    ∧ ((create_file s name permissions uid data now now_log).fs.inodes s.inode_count).ref_count
        = 1
    ∧ ((create_file s name permissions uid data now now_log).fs.inodes
        s.inode_count).permissions = permissions.take 10
    ∧ (permissions.length ≤ 9 →
        ((create_file s name permissions uid data now now_log).fs.inodes
          s.inode_count).permissions = permissions)
    ∧ ((create_file s name permissions uid data now now_log).fs.directory s.dir_count).name
        = name.take 256
    ∧ (name.length < 256
        → ((create_file s name permissions uid data now now_log).fs.directory s.dir_count).name
            = name)
    ∧ (name.length < 256 → absent s name
        → resolves (create_file s name permissions uid data now now_log).fs name s.dir_count)
    ∧ ((create_file s name permissions uid data now now_log).fs.directory s.dir_count).inode_id
        = s.inode_count
    ∧ ((create_file s name permissions uid data now now_log).fs.directory
        s.dir_count).is_soft_link = 0 := by
  have hg := create_file_ok_check s name permissions uid data now now_log hok
  obtain ⟨-, hret, -, hinodes, hdir, -, hic, hdc⟩ :=
    create_file_pass s name permissions uid data now now_log hg
  have hino : (create_file s name permissions uid data now now_log).fs.inodes s.inode_count
      = new_inode (s.inodes s.inode_count) s.inode_count permissions uid data now
          (alloc_blocks (alloc_start s) data) := by
    rw [hinodes, upd_same]
  have hname : ((create_file s name permissions uid data now now_log).fs.directory
      s.dir_count).name = name.take 256 := by
    rw [hdir, upd_same]
    rfl
  rw [hino]
  refine ⟨hret, hic, hdc, rfl, rfl, rfl, ?_, rfl, rfl, ?_, hname, ?_, ?_, ?_, ?_⟩
  · show Int.tmod uid 10 = uid % 10
    exact Int.tmod_eq_emod huid (by decide)
  · intro h
    show strncpy 10 permissions = permissions
    exact strncpy_short _ _ (by omega)
  · intro h
    rw [hname]
    exact List.take_of_length_le (Nat.le_of_lt h)
  · intro h habs
    exact (lookup_eq_some_iff_resolves _ _ _).1
      (create_file_lookup s name permissions uid data now now_log hg h
        ((lookup_eq_none_iff_absent s name).2 habs))
  · rw [hdir, upd_same]
  · rw [hdir, upd_same]

/-- C19, witness: the first call of the test driver, uid 1001. -/
theorem create_file_metadata_witness :
    (create_file init_fs (ascii "file1.txt") (ascii "rw-r--r--") 1001
      (ascii "Hello, Filesystem!") 1 2).status = Status.Ok
    ∧ (0 : Int) ≤ 1001
    ∧ init_fs.dir_count < MAX_INODES
    ∧ init_fs.block_count + blocks_needed (ascii "Hello, Filesystem!").length ≤ MAX_BLOCKS
    ∧ (create_file init_fs (ascii "file1.txt") (ascii "rw-r--r--") 1001
        (ascii "Hello, Filesystem!") 1 2).ret = (init_fs.inode_count : Int)
    ∧ ((create_file init_fs (ascii "file1.txt") (ascii "rw-r--r--") 1001
        (ascii "Hello, Filesystem!") 1 2).fs.inodes init_fs.inode_count).group_id
        = (1001 : Int) % 10
    ∧ ((create_file init_fs (ascii "file1.txt") (ascii "rw-r--r--") 1001
        (ascii "Hello, Filesystem!") 1 2).fs.inodes init_fs.inode_count).permissions
        = ascii "rw-r--r--" :=
  ⟨by decide, by decide, by decide, by decide,
    (create_file_metadata init_fs (ascii "file1.txt") (ascii "rw-r--r--") 1001
      (ascii "Hello, Filesystem!") 1 2 (by decide) (by decide) (by decide) (by decide)).1,
    (create_file_metadata init_fs (ascii "file1.txt") (ascii "rw-r--r--") 1001
      (ascii "Hello, Filesystem!") 1 2 (by decide) (by decide) (by decide)
      (by decide)).2.2.2.2.2.2.1,
    (create_file_metadata init_fs (ascii "file1.txt") (ascii "rw-r--r--") 1001
      (ascii "Hello, Filesystem!") 1 2 (by decide) (by decide) (by decide)
      (by decide)).2.2.2.2.2.2.2.2.2.1 (by decide)⟩

end SimpleFS
